import Mathlib

/-!
Verification development for the pym8190a waveform and sequence compilation
engine. The Python source (src/pym8190a/elements.py, src/pym8190a/pym8190a.py,
src/pym8190a/hardware.py) is shallowly embedded: floating-point quantities are
modelled as exact rationals, numpy integer casts as explicit truncation,
Python exceptions as `Except String`, and the orchestrator's mutable objects
as explicit state records.
-/

namespace Pym8190a

/-! ## Module constants (elements.py lines 26-32, pym8190a.py lines 18-27) -/

/-- elements.py: `__SAMPLE_FREQUENCY__ = 12e3` (samples per microsecond). -/
def sampleFrequency : ℚ := 12000

/-- elements.py: `__AMPLITUDE_GRANULARITY__ = 1 / 2. ** 11`. -/
def amplitudeGranularity : ℚ := 1 / 2 ^ 11

/-- elements.py: `__BLM__ = 384. / __SAMPLE_FREQUENCY__`. -/
def blm : ℚ := 384 / sampleFrequency

/-- elements.py: `__SAMPLE_DURATION_TOLERANCE__ = 1e-2 / __SAMPLE_FREQUENCY__`. -/
def sampleDurationTolerance : ℚ := (1 / 100) / sampleFrequency

/-- elements.py: `__MAX_LENGTH_SMPL__ = 2e9`. -/
def maxLengthSmpl : ℚ := 2 * 10 ^ 9

/-- np.around rounds to the nearest integer, ties to even (numpy semantics). -/
def roundHalfEven (q : ℚ) : ℤ :=
  if q - ⌊q⌋ < 1 / 2 then ⌊q⌋
  else if (1 : ℚ) / 2 < q - ⌊q⌋ then ⌊q⌋ + 1
  else if ⌊q⌋ % 2 = 0 then ⌊q⌋ else ⌊q⌋ + 1

/-- elements.py line 39: `round_length_mus_full_sample`, i.e.
`np.around(length_mus * __SAMPLE_FREQUENCY__) / __SAMPLE_FREQUENCY__`. -/
def round_length_mus_full_sample (lengthMus : ℚ) : ℚ :=
  (roundHalfEven (lengthMus * sampleFrequency) : ℚ) / sampleFrequency

/-- Default `atol` of np.allclose (1e-8); the source leaves it at its default. -/
def allcloseAtol : ℚ := 1 / 10 ^ 8

/-- np.allclose(a, b, rtol) for scalars: `|a - b| <= atol + rtol * |b|`.
The source passes `__SAMPLE_DURATION_TOLERANCE__` in the third, i.e. the
`rtol`, position. -/
def npAllclose (a b rtol : ℚ) : Bool :=
  |a - b| ≤ allcloseAtol + rtol * |b|

/-- elements.py line 43: `valid_length_mus` raises unless
`np.allclose(length_mus, round_length_mus_full_sample(length_mus),
__SAMPLE_DURATION_TOLERANCE__)`. -/
def valid_length_mus (lengthMus : ℚ) : Except String Unit :=
  if npAllclose lengthMus (round_length_mus_full_sample lengthMus) sampleDurationTolerance
  then Except.ok () else Except.error "length mus is not valid for the current sample_frequency"

/-- elements.py line 55: `length_mus2length_smpl` validates, then returns
`np.around(length_mus * __SAMPLE_FREQUENCY__)` as an integer. -/
def length_mus2length_smpl (lengthMus : ℚ) : Except String ℤ :=
  match valid_length_mus lengthMus with
  | Except.error e => Except.error e
  | Except.ok _ => Except.ok (roundHalfEven (lengthMus * sampleFrequency))

/-- elements.py line 60: `length_smpl2length_mus` (an integer sample count is
always valid) divides by the sample frequency. -/
def length_smpl2length_mus (lengthSmpl : ℤ) : ℚ :=
  (lengthSmpl : ℚ) / sampleFrequency

/-- elements.py line 65: `round_to_amplitude_granularity`. -/
def round_to_amplitude_granularity (amplitude : ℚ) : ℚ :=
  (roundHalfEven (amplitude / amplitudeGranularity) : ℚ) * amplitudeGranularity

/-! ## Sequence-table encoder (elements.py lines 940-971) -/

/-- elements.py line 27: `__ADVANCE_MODE_MAP__` keys. -/
inductive AdvanceMode
  | AUTO
  | COND
  | REP
  | SING
  deriving DecidableEq, Repr, Inhabited

/-- elements.py lines 27 and 948: AUTO=0, COND=1, REP=2, SING=3. -/
def advanceMap : AdvanceMode → ℕ
  | .AUTO => 0
  | .COND => 1
  | .REP => 2
  | .SING => 3

/-- The fields of a `BaseSequenceStep` that `sequence_table_data_block` reads. -/
structure SeqTableStep where
  loop_count : ℕ
  advance_mode : AdvanceMode
  marker_enable : Bool
  segment_start_offset : ℕ
  segment_end_offset : ℕ
  deriving DecidableEq, Repr

/-- struct.pack('I', x): the four bytes of a 32-bit unsigned value, least
significant byte first (x86 native order). -/
def pack32 (x : ℕ) : List ℕ :=
  [x % 256, x / 2 ^ 8 % 256, x / 2 ^ 16 % 256, x / 2 ^ 24 % 256]

/-- elements.py lines 950-961: the control word of row `i` out of `n` rows:
`2^28` for the first row, `2^30` for the last row, `marker_enable * 2^24`,
the sequence-level advance code times `2^20`, and the step's advance code
times `2^16`. -/
def controlWord (i n : ℕ) (seqAdvanceMode : AdvanceMode) (step : SeqTableStep) : ℕ :=
  (if i = 0 then 2 ^ 28 else 0) + (if i = n - 1 then 2 ^ 30 else 0)
  + (if step.marker_enable then 1 else 0) * 2 ^ 24
  + advanceMap seqAdvanceMode * 2 ^ 20
  + advanceMap step.advance_mode * 2 ^ 16

/-- elements.py lines 962-968: one 24-byte row, the concatenation
`control + seq_loop_count + wave_lc + wave_id + wave_start_offset +
wave_end_offset`, each packed as a 4-byte unsigned integer. -/
def stepRecord (i n seqLoopCount : ℕ) (seqAdvanceMode : AdvanceMode)
    (step : SeqTableStep) (segmentId : ℕ) : List ℕ :=
  pack32 (controlWord i n seqAdvanceMode step) ++ pack32 seqLoopCount
  ++ pack32 step.loop_count ++ pack32 segmentId
  ++ pack32 step.segment_start_offset ++ pack32 step.segment_end_offset

/-- The `for i, step in enumerate(self.data_list)` loop of
elements.py lines 949-970, pairing each step with `segment_ids[i]`. -/
def encodeRows (n seqLoopCount : ℕ) (seqAdvanceMode : AdvanceMode) :
    ℕ → List SeqTableStep → List ℕ → List (List ℕ)
  | i, step :: steps, sid :: sids =>
      stepRecord i n seqLoopCount seqAdvanceMode step sid
        :: encodeRows n seqLoopCount seqAdvanceMode (i + 1) steps sids
  | _, _, _ => []

/-- elements.py line 940: `Sequence.sequence_table_data_block`, restricted to
the binary records (the ASCII command preamble and the `_sequence_id`
bookkeeping are not read by any claim). Raises `What happened?` unless the
number of steps equals the number of supplied segment ids. -/
def sequence_table_data_block (seqLoopCount : ℕ) (seqAdvanceMode : AdvanceMode)
    (steps : List SeqTableStep) (segmentIds : List ℕ) : Except String (List (List ℕ)) :=
  if steps.length ≠ segmentIds.length then Except.error "What happened?"
  else Except.ok (encodeRows steps.length seqLoopCount seqAdvanceMode 0 steps segmentIds)

/-! ## WaveStep (elements.py lines 451-644) -/

/-- elements.py line 511: the values `check_list_element` admits for `type`. -/
inductive WaveType
  | wait
  | constant
  | sine
  | robust
  deriving DecidableEq, Repr

/-- elements.py line 467: the values admitted for `phase_offset_type`. -/
inductive PhaseOffsetType
  | coherent
  | absolute
  deriving DecidableEq, Repr

/-- Machine epsilon of numpy float64: `np.finfo(np.float64).eps = 2 ** -52`. -/
def float64Eps : ℚ := 1 / 2 ^ 52

/-- The fields a `WaveStep` stores after `__init__` (elements.py line 451):
the setters write `_length_mus`, `_frequencies`, `_amplitudes`, `_phases`,
`_constant_value`, the markers, the type and the phase-offset type.
`_length_smpl` is coupled to `_length_mus` by both length setters
(lines 479-490), so it is modelled as the derived `WaveStep.lengthSmpl`. -/
structure WaveStep where
  name : String := ""
  type : WaveType := WaveType.wait
  phase_offset_type : PhaseOffsetType := PhaseOffsetType.coherent
  lengthMus : ℚ := 0
  frequencies : List ℚ := [0]
  amplitudesRaw : List ℚ := [0]
  phasesRaw : List ℚ := [0]
  constant_value : ℚ := 0
  smpl_marker : Bool := false
  sync_marker : Bool := false
  deriving DecidableEq, Repr

/-- elements.py lines 479-490: `_length_smpl = length_mus2length_smpl(_length_mus)`
(modulo the validation performed by `WaveStep.validateInit`). -/
def WaveStep.lengthSmpl (w : WaveStep) : ℤ :=
  roundHalfEven (w.lengthMus * sampleFrequency)

/-- elements.py line 105: `WaveStep(length_smpl=v, name=n)`; the
`length_smpl` setter stores `_length_mus = v / __SAMPLE_FREQUENCY__`. -/
def waveStepOfLengthSmpl (v : ℤ) (n : String) : WaveStep :=
  { name := n, lengthMus := (v : ℚ) / sampleFrequency }

/-- The validations `WaveStep.__init__` runs through its setters on the
fields the claims read: `valid_length_mus` plus the `check_range` of the
`length_mus` setter (elements.py lines 479-484), and the `check_range_type`
of the `constant_value` setter (line 544, range `±(1 + 10·eps)`). The
`amplitudes` setter (lines 533-536) only typechecks and stores; it does not
inspect the sum. Lean's types already enforce the Python type checks. -/
def WaveStep.validateInit (w : WaveStep) : Except String WaveStep :=
  match valid_length_mus w.lengthMus with
  | Except.error e => Except.error e
  | Except.ok _ =>
    if ¬ (0 ≤ w.lengthMus ∧ w.lengthMus ≤ (maxLengthSmpl - 1) / sampleFrequency) then
      Except.error "length_mus must be in range"
    else if ¬ (-(1 + 10 * float64Eps) ≤ w.constant_value ∧
        w.constant_value ≤ 1 + 10 * float64Eps) then
      Except.error "constant_value must be in range"
    else Except.ok w

/-- elements.py lines 526-528: the broadcast step of the `amplitudes` getter:
a single stored amplitude is spread over all configured frequencies. -/
def WaveStep.broadcastAmplitudes (w : WaveStep) : List ℚ :=
  if w.amplitudesRaw.length = 1
  then List.replicate w.frequencies.length w.amplitudesRaw.headI
  else w.amplitudesRaw

/-- elements.py lines 524-531: the `amplitudes` property getter; it raises
iff the broadcast sum exceeds 1.0 by more than ten times machine epsilon. -/
def WaveStep.amplitudes (w : WaveStep) : Except String (List ℚ) :=
  if w.broadcastAmplitudes.sum - 1 > 10 * float64Eps
  then Except.error "amplitudes sum is larger than one"
  else Except.ok w.broadcastAmplitudes

/-- elements.py lines 547-551: the `phases` getter broadcasts the same way
(with no sum check). -/
def WaveStep.phases (w : WaveStep) : List ℚ :=
  if w.phasesRaw.length = 1
  then List.replicate w.frequencies.length w.phasesRaw.headI
  else w.phasesRaw

/-- elements.py line 611: `marker = smpl_marker + 2 * sync_marker`. -/
def WaveStep.marker (w : WaveStep) : ℤ :=
  (if w.smpl_marker then 1 else 0) + 2 * (if w.sync_marker then 1 else 0)

/-- C-style float-to-integer conversion as performed by `np.int16(...)`:
truncation toward zero. -/
def truncToZero (q : ℚ) : ℤ :=
  if 0 ≤ q then ⌊q⌋ else ⌈q⌉

/-- Two's-complement wrap-around of numpy int16 arithmetic. -/
def int16 (z : ℤ) : ℤ :=
  (z + 2 ^ 15) % 2 ^ 16 - 2 ^ 15

/-- elements.py lines 558-562: `effective_offset`. -/
def WaveStep.effectiveOffset (w : WaveStep) (coherentOffset : ℤ) : ℤ :=
  match w.phase_offset_type with
  | PhaseOffsetType.coherent => coherentOffset
  | PhaseOffsetType.absolute => 0

/-- elements.py lines 576-600: `samples_waveform` on a fresh zero buffer of
the step's own length. The transcendental `sin(2*pi*f/SF * idx + radians(p))`
of line 566-569 is abstracted as the parameter `sinApprox f p idx`; every
other arithmetic step (the per-frequency `np.int16` cast, the int16
accumulation, the shift by `2 ** 4` and the marker addition, lines 571 and
598-599) is exact. A `robust` step reads the imported wave_file's
precompiled arrays, which no claim evaluates; it is out of this model's
scope and returns an error. -/
def WaveStep.samplesWaveform (sinApprox : ℚ → ℚ → ℤ → ℚ) (w : WaveStep)
    (coherentOffset : ℤ) : Except String (List ℤ) :=
  let n := w.lengthSmpl.toNat
  let off := w.effectiveOffset coherentOffset
  match w.type with
  | WaveType.wait =>
      Except.ok ((List.range n).map fun _ => int16 (int16 (0 * 2 ^ 4) + w.marker))
  | WaveType.constant =>
      Except.ok ((List.range n).map fun _ =>
        int16 (int16 (int16 (truncToZero (w.constant_value * 2047)) * 2 ^ 4) + w.marker))
  | WaveType.sine =>
      match w.amplitudes with
      | Except.error e => Except.error e
      | Except.ok amps =>
          Except.ok ((List.range n).map fun k =>
            int16 (int16 ((w.frequencies.zip (amps.zip w.phases)).foldl
              (fun acc fap => int16 (acc + int16 (truncToZero
                (fap.2.1 * 2047 * sinApprox fap.1 fap.2.2 (off + k))))) 0 * 2 ^ 4)
              + w.marker))
  | WaveType.robust =>
      Except.error "robust synthesis reads the imported wave_file (not modelled)"

/-- A concrete sine step with stored amplitudes `[0.6, 0.6]` over two
frequencies: its broadcast amplitude sum is `1.2`. -/
def overAmpSineStep : WaveStep :=
  { type := WaveType.sine
    lengthMus := 1 / 12000
    frequencies := [100, 200]
    amplitudesRaw := [3 / 5, 3 / 5] }

/-- Modelled from the spec's words (section 4.2): `round(constant_value * 2047)`
with round-to-nearest; compared against the source's `np.int16` truncation. -/
def specRoundedConstantSample (constantValue : ℚ) : ℤ :=
  roundHalfEven (constantValue * 2047)

/-- A concrete constant step with value `0.7`: `0.7 * 2047 = 1432.9`, which
`np.int16` truncates to `1432` while rounding would give `1433`. -/
def truncCexStep : WaveStep :=
  { type := WaveType.constant
    lengthMus := 1 / 12000
    constant_value := 7 / 10
    smpl_marker := true }

/-- A concrete constant step with value `0.5` used as a witness input. -/
def halfConstStep : WaveStep :=
  { type := WaveType.constant
    lengthMus := 1 / 12000
    constant_value := 1 / 2
    smpl_marker := true }

/-! ## DataList and the implicit padding step (elements.py lines 84-133) -/

/-- elements.py lines 109 and 114: `type(self.list_owner) == SequenceStep`
decides whether the phantom padding element exists. -/
inductive ListOwner
  | sequenceStep
  | sequence
  deriving DecidableEq, Repr

/-- elements.py lines 98-101: `missing_smpl`, the samples missing to reach
the 5*64-sample minimum or the next 64-sample boundary:
`max(5 * 64 - ls, (-ls) % 64)` over Python integers (the modulus of a
positive divisor is nonnegative, as with `Int.emod`). -/
def missingSmpl (steps : List WaveStep) : ℤ :=
  max (5 * 64 - (steps.map WaveStep.lengthSmpl).sum)
    ((-(steps.map WaveStep.lengthSmpl).sum) % 64)

/-- elements.py lines 103-105: `missing_smpl_step`, a fresh
`WaveStep(length_smpl=missing_smpl, name='_missing_smpls_')` (its type is
the default `wait`). -/
def missingSmplStep (steps : List WaveStep) : WaveStep :=
  waveStepOfLengthSmpl (missingSmpl steps) "_missing_smpls_"

/-- elements.py lines 107-111: `DataList.__len__` reports one extra element
when the owner is a `SequenceStep`. -/
def dataListLen (owner : ListOwner) (steps : List WaveStep) : ℕ :=
  steps.length + (if owner = ListOwner.sequenceStep then 1 else 0)

/-- elements.py lines 113-117: `DataList.__getitem__`; index `len(self.list)`
of a `SequenceStep`-owned list yields the synthetic padding step, any other
out-of-range index raises (modelled as `none`). -/
def dataListGet (owner : ListOwner) (steps : List WaveStep) (i : ℕ) : Option WaveStep :=
  if owner = ListOwner.sequenceStep ∧ i = steps.length
  then some (missingSmplStep steps)
  else steps.get? i


/-! ## Power and length bookkeeping (elements.py lines 183-188, 619-629,
664-670, 726-728)

Iterating a `SequenceStep`-owned `DataList` (as `BaseDataList.length_mus` and
`normalized_avg_sine_power` do) yields the stored wave steps followed by the
synthetic `missing_smpl_step`, because `MutableSequence.__iter__` calls
`__getitem__` until it raises; a `Sequence`-owned list yields only its stored
steps. -/

/-- elements.py lines 619-629: `normalized_avg_sine_power` of a wave step:
0 for wait and constant, the sum of the squared broadcast amplitudes (read
through the checking getter) for sine. A robust step reads its wave_file,
which no claim evaluates; it is outside this model. -/
def WaveStep.normalizedAvgSinePower (w : WaveStep) : Except String ℚ :=
  match w.type with
  | WaveType.wait => Except.ok 0
  | WaveType.constant => Except.ok 0
  | WaveType.sine =>
      match w.amplitudes with
      | Except.error e => Except.error e
      | Except.ok amps => Except.ok ((amps.map (fun a => a ^ 2)).sum)
  | WaveType.robust => Except.error "robust power reads the wave_file (not modelled)"

/-- A `SequenceStep` as the orchestrator builds it: name, loop count,
advance mode and the owned wave steps (defaults from elements.py lines
649-652 and 750-752; `marker_enable` and the segment offsets are not read by
the orchestrator claims). -/
structure Seg where
  name : String := ""
  loop_count : ℕ := 1
  advance_mode : AdvanceMode := AdvanceMode.AUTO
  steps : List WaveStep := []
  deriving DecidableEq, Repr

/-- The steps iteration over a segment's data list yields: the stored steps
plus the implicit padding step. -/
def Seg.effectiveSteps (s : Seg) : List WaveStep :=
  s.steps ++ [missingSmplStep s.steps]

/-- elements.py lines 664-666: `length_mus` of a `SequenceStep` (wave steps
have no `loop_count`, so `repeated_length_mus` is their plain length). -/
def Seg.lengthMus (s : Seg) : ℚ :=
  (s.effectiveSteps.map WaveStep.lengthMus).sum

/-- elements.py line 669: the sample count of a segment. -/
def Seg.lengthSmpl (s : Seg) : ℤ :=
  roundHalfEven (s.lengthMus * sampleFrequency)

/-- elements.py lines 183-184: `repeated_length_mus` of a `SequenceStep`. -/
def Seg.repeatedLengthMus (s : Seg) : ℚ :=
  s.lengthMus * s.loop_count

/-- Left-to-right evaluation of `sum([...])` over fallible summands, as a
Python list comprehension evaluates them. -/
def sumExcept (f : α → Except String ℚ) : List α → Except String ℚ
  | [] => Except.ok 0
  | x :: xs =>
      match f x with
      | Except.error e => Except.error e
      | Except.ok v =>
          match sumExcept f xs with
          | Except.error e => Except.error e
          | Except.ok rest => Except.ok (v + rest)

/-- elements.py lines 727-728 applied to a `SequenceStep`: the
length-weighted mean of the wave steps' powers over the segment's repeated
length (a zero-length segment divides by zero; numpy turns that into a
non-raising nan, a degenerate case the claims do not reach, modelled by
rational division's zero convention). -/
def Seg.normalizedAvgSinePower (s : Seg) : Except String ℚ :=
  match sumExcept (fun w =>
      match w.normalizedAvgSinePower with
      | Except.error e => Except.error e
      | Except.ok p => Except.ok (w.lengthMus * p)) s.effectiveSteps with
  | Except.error e => Except.error e
  | Except.ok num => Except.ok (num / s.repeatedLengthMus)

/-- elements.py lines 664-666 applied to a `Sequence` (its own `loop_count`
stays at the `MultiChSeq` default 1, so its repeated length equals this). -/
def seqLengthMus (segs : List Seg) : ℚ :=
  (segs.map Seg.repeatedLengthMus).sum

/-- elements.py lines 727-728 applied to a `Sequence`. -/
def seqNormalizedAvgSinePower (segs : List Seg) : Except String ℚ :=
  match sumExcept (fun s =>
      match s.normalizedAvgSinePower with
      | Except.error e => Except.error e
      | Except.ok p => Except.ok (s.repeatedLengthMus * p)) segs with
  | Except.error e => Except.error e
  | Except.ok num => Except.ok (num / seqLengthMus segs)

/-! ## Multi-channel orchestrator (pym8190a.py)

The model fixes the device/channel universe of `__CH_DICT_FULL__`:
devices '2g' and '128m', channels 1 and 2 each. A `ch_dict` marks which
device keys are present and which of their channels are used. -/

/-- pym8190a.py line 18: the two devices of `__CH_DICT_FULL__`. -/
inductive Awg
  | g2
  | m128
  deriving DecidableEq, Repr

/-- pym8190a.py line 20: `__MASTER_AWG__ = '2g'`. -/
def masterAwg : Awg := Awg.g2

/-- pym8190a.py line 21: `__MASTER_TRIGGER_CHANNEL__ = 1`. -/
def masterTriggerChannel : ℕ := 1

/-- pym8190a.py line 22: `__TRIGGER_DELAY_LENGTH_MUS__ = 27 * __BLM__`. -/
def triggerDelayLengthMus : ℚ := 27 * blm

/-- pym8190a.py line 23: `__TRIGGER_LENGTH_MUS__ = 27 * __BLM__`. -/
def triggerLengthMus : ℚ := 27 * blm

/-- pym8190a.py line 24: `__SLAVE_TRIGGER_SAFETY_LENGTH_MUS__ = 5 * __BLM__`
(pym8190a.py reads its own module constant, not settings.py's). -/
def slaveTriggerSafetyLengthMus : ℚ := 5 * blm

/-- pym8190a.py line 25: `__MAX_SINE_AVG_POWER__`. -/
def maxSineAvgPower : Awg → ℕ → Option ℚ
  | Awg.g2, _ => none
  | Awg.m128, 1 => some 1
  | Awg.m128, _ => none

/-- pym8190a.py line 26: `__AMPLIFIER_POWER__` (the `None` at ('128m', 2) is
behind a `None` ceiling and never read; 0 stands in for it). -/
def amplifierPower : Awg → ℕ → ℚ
  | Awg.g2, _ => 5
  | Awg.m128, 1 => 10
  | Awg.m128, _ => 0

/-- A `ch_dict`: `none` means the device key is absent; a present key holds
the channel list. -/
structure ChDict where
  g2 : Option (List ℕ)
  m128 : Option (List ℕ)
  deriving DecidableEq, Repr

/-- Python's `len(ch_dict)`: the number of device keys. -/
def ChDict.numDevices (c : ChDict) : ℕ :=
  (if c.g2.isSome then 1 else 0) + (if c.m128.isSome then 1 else 0)

/-- Python's `awg_str in ch_dict`. -/
def ChDict.hasDevice (c : ChDict) : Awg → Bool
  | Awg.g2 => c.g2.isSome
  | Awg.m128 => c.m128.isSome

/-- The channel list of a device (empty when the key is absent, in which
case no loop body runs, matching `ch_dict.get(awg_str, [])`). -/
def ChDict.channels (c : ChDict) : Awg → List ℕ
  | Awg.g2 => c.g2.getD []
  | Awg.m128 => c.m128.getD []

/-- One segment list (`Sequence.data_list`) per (device, channel) pair. -/
structure ChanSeqs where
  g2c1 : List Seg
  g2c2 : List Seg
  m1c1 : List Seg
  m1c2 : List Seg
  deriving DecidableEq, Repr

/-- Read the segment list of a channel. -/
def ChanSeqs.get (s : ChanSeqs) : Awg → ℕ → List Seg
  | Awg.g2, 1 => s.g2c1
  | Awg.g2, 2 => s.g2c2
  | Awg.m128, 1 => s.m1c1
  | Awg.m128, 2 => s.m1c2
  | _, _ => []

/-- Rewrite the segment list of a channel (channels outside the universe do
not exist and are untouched). -/
def ChanSeqs.update (s : ChanSeqs) : Awg → ℕ → (List Seg → List Seg) → ChanSeqs
  | Awg.g2, 1, f => { s with g2c1 := f s.g2c1 }
  | Awg.g2, 2, f => { s with g2c2 := f s.g2c2 }
  | Awg.m128, 1, f => { s with m1c1 := f s.m1c1 }
  | Awg.m128, 2, f => { s with m1c2 := f s.m1c2 }
  | _, _, _ => s

/-- Apply a per-channel rewrite to every channel of one device, in channel
list order. -/
def ChanSeqs.updateAwg (s : ChanSeqs) (a : Awg) (chl : List ℕ)
    (f : ℕ → List Seg → List Seg) : ChanSeqs :=
  chl.foldl (fun acc ch => acc.update a ch (f ch)) s

/-- Apply a per-channel rewrite to every channel of every device present in
the ch_dict ('2g' first, then '128m'; the per-channel rewrites are
independent, so the device order does not matter here). -/
def ChanSeqs.updateAll (s : ChanSeqs) (c : ChDict) (f : Awg → ℕ → List Seg → List Seg) :
    ChanSeqs :=
  (s.updateAwg Awg.g2 (c.channels Awg.g2) (f Awg.g2)).updateAwg
    Awg.m128 (c.channels Awg.m128) (f Awg.m128)

/-- pym8190a.py line 138: a `MultiChSeq` (named program): its ch_dict, one
sequence per channel, and the lifecycle status (0 = building, 1 = finalized,
2 = precompiled). -/
structure MultiChSeq where
  name : String := ""
  chDict : ChDict
  seqs : ChanSeqs
  status : ℕ := 0
  deriving DecidableEq, Repr

/-- pym8190a.py lines 231-243: `start_new_segment` without segment reuse:
append a fresh `SequenceStep(name=name, loop_count=...)` to every channel;
the `loop_count` setter (elements.py line 654) rejects values outside
`[0, 2^32 - 1]`. -/
def MultiChSeq.startNewSegment (m : MultiChSeq) (segName : String) (loopCount : ℕ) :
    Except String MultiChSeq :=
  if loopCount > 2 ^ 32 - 1 then Except.error "loop_count must be in range"
  else
    let s' := m.seqs.updateAll m.chDict
      (fun _ _ l => l ++ [{ name := segName, loop_count := loopCount }])
    Except.ok { m with seqs := s' }

/-- Append a wave step to the last segment of a list. -/
def appendToLastSeg : List Seg → WaveStep → List Seg
  | [], _ => []
  | [s], w => [{ s with steps := s.steps ++ [w] }]
  | s :: rest, w => s :: appendToLastSeg rest w

/-- The channel-by-channel body of `add_step` (pym8190a.py lines 209-229) in
its `pd={}` form: for each channel in order, fail if the channel has no open
segment, else append the wave step to the last segment. -/
def addStepGo (w : WaveStep) : List (Awg × ℕ) → ChanSeqs → Except String ChanSeqs
  | [], s => Except.ok s
  | (a, ch) :: rest, s =>
      if (s.get a ch).isEmpty then
        Except.error "There is no segment to append to. Start a new one first."
      else addStepGo w rest (s.update a ch (fun l => appendToLastSeg l w))

/-- The (device, channel) pairs of a ch_dict in iteration order. -/
def ChDict.channelPairs (c : ChDict) : List (Awg × ℕ) :=
  (c.channels Awg.g2).map (fun ch => (Awg.g2, ch))
    ++ (c.channels Awg.m128).map (fun ch => (Awg.m128, ch))

/-- pym8190a.py lines 203-229: `add_step` in the `pd={}` form used by
`fix_avg_rf_power`'s `self.asc(length_mus=__BLM__)`: guard on the building
state, validate the `WaveStep(length_mus=..., name=...)` the setters build,
then append it to the currently-open (last) segment of every channel. -/
def MultiChSeq.addStepWait (m : MultiChSeq) (lengthMus : ℚ) (stepName : String) :
    Except String MultiChSeq :=
  if m.status ≠ 0 then
    Except.error "MCAS is in a state where it can not be changed anymore."
  else
    match WaveStep.validateInit { name := stepName, lengthMus := lengthMus } with
    | Except.error e => Except.error e
    | Except.ok w =>
        match addStepGo w m.chDict.channelPairs m.seqs with
        | Except.error e => Except.error e
        | Except.ok s => Except.ok { m with seqs := s }

/-- pym8190a.py lines 250-252: the master trigger segment: a sync-marker
pulse of `__TRIGGER_LENGTH_MUS__` (the marker only on the master trigger
channel) followed by a wait of
`__TRIGGER_DELAY_LENGTH_MUS__ - __TRIGGER_LENGTH_MUS__`. -/
def triggerStep (ch : ℕ) : Seg :=
  { name := "triggerwait"
    steps := [{ name := "trigger", lengthMus := triggerLengthMus, sync_marker := decide (ch = masterTriggerChannel) },
              { name := "waittrigger", lengthMus := triggerDelayLengthMus - triggerLengthMus }] }

/-- pym8190a.py line 253: the `w_trig_safety` segment. -/
def wTrigSafetyStep : Seg :=
  { name := "w_trig_safety"
    steps := [{ name := "w_trig_safety", lengthMus := slaveTriggerSafetyLengthMus }] }

/-- pym8190a.py line 260: the slave wait-trigger segment: one zero-length
wait step, `advance_mode='SING'`. -/
def slaveWaitTriggerStep : Seg :=
  { advance_mode := AdvanceMode.SING
    steps := [{ name := "w_trig_step", lengthMus := 0 }] }

/-- pym8190a.py lines 245-254: `set_master_trigger_settings`: on every
channel of the master device, prepend the trigger segment and append the
safety segment. -/
def MultiChSeq.setMasterTriggerSettings (m : MultiChSeq) : MultiChSeq :=
  let s' := m.seqs.updateAwg Awg.g2 (m.chDict.channels Awg.g2)
    (fun ch l => triggerStep ch :: l ++ [wTrigSafetyStep])
  { m with seqs := s' }

/-- pym8190a.py lines 256-261: `set_slave_trigger_settings`: on every channel
of every non-master device, append the wait-trigger segment. -/
def MultiChSeq.setSlaveTriggerSettings (m : MultiChSeq) : MultiChSeq :=
  let s' := m.seqs.updateAwg Awg.m128 (m.chDict.channels Awg.m128)
    (fun _ l => l ++ [slaveWaitTriggerStep])
  { m with seqs := s' }

/-- pym8190a.py lines 373-378: `check_avg_rf_power` returns
`max(0, length_mus * (avg_power / max_avg_power - 1))`. -/
def check_avg_rf_power (segs : List Seg) (a : Awg) (ch : ℕ) (maxAvgPower : ℚ) :
    Except String ℚ :=
  match seqNormalizedAvgSinePower segs with
  | Except.error e => Except.error e
  | Except.ok p =>
      Except.ok (max 0 (seqLengthMus segs * (amplifierPower a ch * p / maxAvgPower - 1)))

/-- pym8190a.py lines 299-303: `additional_wait_time`. -/
def MultiChSeq.additionalWaitTime (m : MultiChSeq) (a : Awg) (ch : ℕ) (maxAvgPower : ℚ)
    (ignore : Bool) : Except String ℚ :=
  if ignore then Except.ok 0
  else check_avg_rf_power (m.seqs.get a ch) a ch maxAvgPower

/-- The inner per-channel loop of pym8190a.py lines 279-281: the waits of one
device's channels that have a configured ceiling and are in the ch_dict. -/
def MultiChSeq.deviceWaits (m : MultiChSeq) (a : Awg) (ignore : Bool) :
    Except String (List ℚ) :=
  match sumWaits [1, 2] with
  | Except.error e => Except.error e
  | Except.ok l => Except.ok l
where
  sumWaits : List ℕ → Except String (List ℚ)
    | [] => Except.ok []
    | ch :: rest =>
        match maxSineAvgPower a ch with
        | none => sumWaits rest
        | some maxP =>
            if ch ∈ m.chDict.channels a then
              match m.additionalWaitTime a ch maxP ignore with
              | Except.error e => Except.error e
              | Except.ok wt =>
                  match sumWaits rest with
                  | Except.error e => Except.error e
                  | Except.ok l => Except.ok (wt :: l)
            else sumWaits rest

/-- The re-check loop of pym8190a.py lines 287-297 over the whole
`__MAX_SINE_AVG_POWER__` map: raise when a channel with a ceiling still
exceeds `1.1 *` ceiling and the caller did not opt out. -/
def MultiChSeq.recheckPower (m : MultiChSeq) (ignore : Bool) : Except String Unit :=
  go [(Awg.g2, 1), (Awg.g2, 2), (Awg.m128, 1), (Awg.m128, 2)]
where
  go : List (Awg × ℕ) → Except String Unit
    | [] => Except.ok ()
    | (a, ch) :: rest =>
        match maxSineAvgPower a ch with
        | none => go rest
        | some maxP =>
            if ch ∈ m.chDict.channels a then
              match seqNormalizedAvgSinePower (m.seqs.get a ch) with
              | Except.error e => Except.error e
              | Except.ok p =>
                  if amplifierPower a ch * p / maxP > 1.1 ∧ ignore = false then
                    Except.error "Additional wait time added, but power still too high"
                  else go rest
            else go rest

/-- pym8190a.py lines 275-297: `fix_avg_rf_power`, faithfully to its
indentation: the early-return test, the corrective-segment append and the
re-check all sit INSIDE the loop over the `__MAX_SINE_AVG_POWER__` devices,
so they run once per device, on the waits accumulated so far. The device
iteration order of the Python dict is build-dependent; it is a parameter. -/
def fixGo (ignore : Bool) : List Awg → List ℚ → MultiChSeq → Except String MultiChSeq
  | [], _, m => Except.ok m
  | a :: rest, acc, m =>
      match m.deviceWaits a ignore with
      | Except.error e => Except.error e
      | Except.ok ws =>
          let acc' := acc ++ ws
          if acc'.all (fun i => decide (i = 0)) then Except.ok m
          else
            match m.startNewSegment "rf_power_safety"
                (Int.toNat ⌈(acc'.foldl max 0) / blm⌉) with
            | Except.error e => Except.error e
            | Except.ok m1 =>
                match m1.addStepWait blm "" with
                | Except.error e => Except.error e
                | Except.ok m2 =>
                    match m2.recheckPower ignore with
                    | Except.error e => Except.error e
                    | Except.ok _ => fixGo ignore rest acc' m2

/-- `fix_avg_rf_power` entry point. -/
def MultiChSeq.fixAvgRfPower (m : MultiChSeq) (order : List Awg) (ignore : Bool) :
    Except String MultiChSeq :=
  fixGo ignore order [] m

/-- pym8190a.py lines 263-273: `finalize`: guard on the building state, run
the power budgeter, inject the trigger segments only when the master device
is present and more than one device key exists, then move to status 1. -/
def MultiChSeq.finalize (m : MultiChSeq) (order : List Awg) (ignore : Bool) :
    Except String MultiChSeq :=
  if m.status ≠ 0 then Except.error "MCAS has already been finalized"
  else
    match m.fixAvgRfPower order ignore with
    | Except.error e => Except.error e
    | Except.ok m1 =>
        let m2 := if m1.chDict.hasDevice masterAwg ∧ m1.chDict.numDevices > 1
          then m1.setMasterTriggerSettings.setSlaveTriggerSettings
          else m1
        Except.ok { m2 with status := 1 }

/-- pym8190a.py lines 305-314: `precompile_samples_waveform`: guard on the
finalized state, then move to status 2 (the sample caching has no observable
effect in this model). -/
def MultiChSeq.precompile (m : MultiChSeq) : Except String MultiChSeq :=
  if m.status ≠ 1 then Except.error "MCAS has already been precompiled"
  else Except.ok { m with status := 2 }


/-! ## Concrete program instances used by the orchestrator claims -/

def powerCexStep : WaveStep :=
  { type := WaveType.sine, lengthMus := blm, amplitudesRaw := [1 / 2] }

def powerCexSeg : Seg :=
  { name := "s", steps := [powerCexStep] }

def powerCexMcas : MultiChSeq :=
  { chDict := ⟨some [1, 2], some [1, 2]⟩, seqs := ⟨[], [], [powerCexSeg], []⟩ }

def singleDeviceMcas : MultiChSeq :=
  { chDict := ⟨some [1, 2], none⟩, seqs := ⟨[], [], [], []⟩ }

def fullEmptyMcas : MultiChSeq :=
  { chDict := ⟨some [1, 2], some [1, 2]⟩, seqs := ⟨[], [], [], []⟩ }


/-! ## Segment reuse and device write (pym8190a.py lines 231-243,
elements.py lines 839-852, hardware.py lines 1023-1068)

An alias (`SequenceStepReuseSegment`) resolves attribute reads through
`__getattribute__` fallback to the step it reuses. Lists built by
`start_new_segment` only ever alias earlier entries, so the reference is
modelled as the target's list index. -/

/-- A `Sequence.data_list` entry: an owned `SequenceStep`, or a
`SequenceStepReuseSegment` alias (elements.py line 839) carrying its own
`name` and the reused step. -/
inductive SeqEntry
  | owned (seg : Seg)
  | reuse (target : ℕ) (segName : String)
  deriving DecidableEq, Repr

/-- The `step.name` read during the scan of `start_new_segment` (an alias
holds a `name` attribute of its own). -/
def SeqEntry.entryName : SeqEntry → String
  | SeqEntry.owned s => s.name
  | SeqEntry.reuse _ n => n

/-- pym8190a.py lines 234-241: with `reuse_segment` set, scan the channel's
data list for the first step whose name matches; append an alias to it when
found, else append a fresh owned segment (with a warning). -/
def startNewSegmentReuse (l : List SeqEntry) (n : String) : List SeqEntry :=
  match l.findIdx? (fun e => e.entryName == n) with
  | some i => l ++ [SeqEntry.reuse i n]
  | none => l ++ [SeqEntry.owned { name := n }]

/-- The resolved sample length of a data-list entry: an alias has no data
list of its own, so `length_smpl` falls through `__getattribute__`
(elements.py lines 848-852) to the reused step, chasing further aliases.
Only backward references resolve, which is all `start_new_segment` builds. -/
def resolveLengthSmpl (l : List SeqEntry) (i : ℕ) : Option ℤ :=
  match l.get? i with
  | some (SeqEntry.owned s) => some s.lengthSmpl
  | some (SeqEntry.reuse t _) => if h : t < i then resolveLengthSmpl l t else none
  | none => none
termination_by i
decreasing_by exact h

/-- The index of the owned step an entry ultimately denotes (the owner of
the `_segment_id` attribute an alias's `segment_id` read falls through to). -/
def resolveOwnerIdx (l : List SeqEntry) (i : ℕ) : Option ℕ :=
  match l.get? i with
  | some (SeqEntry.owned _) => some i
  | some (SeqEntry.reuse t _) => if h : t < i then resolveOwnerIdx l t else none
  | none => none
termination_by i
decreasing_by exact h

/-- What `AWG.write_sequence` has produced after its loop: the per-row
segment ids handed to the sequence-table encoder, the payload uploads
`(segment id, byte count)`, the `_segment_id` assignments recorded on the
owned steps, and the next fresh id of the allocator. -/
structure WriteState where
  ids : List ℕ
  ups : List (ℕ × ℤ)
  asg : List (ℕ × ℕ)
  nextSid : ℕ
  deriving DecidableEq, Repr

/-- hardware.py lines 1044-1063: the write loop. An owned step allocates a
fresh segment id (consecutive ids stand for `segments.define_new`), uploads
`2 * length_smpl` payload bytes and records the id on the step; an alias
(`hasattr(step, 'reused_sequence_step')`) uploads nothing and reuses the
resolved target's recorded id. -/
def writeSeqGo (l : List SeqEntry) (i nextSid : ℕ) (ids : List ℕ)
    (ups : List (ℕ × ℤ)) (asg : List (ℕ × ℕ)) : Except String WriteState :=
  match hg : l.get? i with
  | none => Except.ok ⟨ids, ups, asg, nextSid⟩
  | some (SeqEntry.owned s) =>
      writeSeqGo l (i + 1) (nextSid + 1) (ids ++ [nextSid])
        (ups ++ [(nextSid, 2 * s.lengthSmpl)]) (asg ++ [(i, nextSid)])
  | some (SeqEntry.reuse _ _) =>
      match resolveOwnerIdx l i with
      | none => Except.error "reused sequence step does not resolve"
      | some j =>
          match asg.lookup j with
          | none => Except.error "reused segment has not been written"
          | some sid => writeSeqGo l (i + 1) nextSid (ids ++ [sid]) ups asg
termination_by l.length - i
decreasing_by
  all_goals
    have hlt : i < l.length := (List.get?_eq_some.mp hg).1
    omega

/-- hardware.py line 1023: `write_sequence` over a fresh allocator state. -/
def writeSequence (l : List SeqEntry) (sid0 : ℕ) : Except String WriteState :=
  writeSeqGo l 0 sid0 [] [] []

/-- A concrete segment named pulseA with one wave step, for the witness. -/
def pulseASeg : Seg :=
  { name := "pulseA", steps := [{ name := "p", lengthMus := 1 }] }

end Pym8190a

namespace Pym8190a

/-! ## Theorems -/

/-- Helper: the rounding function is the identity on integers. -/
theorem roundHalfEven_intCast (n : ℤ) : roundHalfEven (n : ℚ) = n := by
  unfold roundHalfEven
  rw [Int.floor_intCast]
  norm_num

/-- Helper: the Boolean np.allclose test as a proposition. -/
theorem npAllclose_iff (a b rtol : ℚ) :
    npAllclose a b rtol = true ↔ |a - b| ≤ allcloseAtol + rtol * |b| := by
  unfold npAllclose
  exact decide_eq_true_iff

/-- C5 counterexample. The duration `d = 1/1200000` µs is exactly `0.01`
samples away from the integer multiple `0` of the sample period, yet
`length_mus2length_smpl` rejects it: the source passes the sample-duration
tolerance to np.allclose in the `rtol` slot, so near zero only the default
`atol = 1e-8` µs (about `1.2e-4` samples) is granted, and the claimed
round-trip is impossible at `d`. -/
theorem C5_absolute_tolerance_cex :
    |(1 : ℚ) / 1200000 - ((0 : ℤ) : ℚ) * (1 / sampleFrequency)| ≤
      (1 / 100) * (1 / sampleFrequency) ∧
    (length_mus2length_smpl ((1 : ℚ) / 1200000)).isOk = false := by
  constructor
  · rw [sampleFrequency, abs_of_nonneg (by norm_num)]
    norm_num
  · have hr : round_length_mus_full_sample ((1 : ℚ) / 1200000) = 0 := by
      unfold round_length_mus_full_sample sampleFrequency roundHalfEven
      norm_num
    have hc : npAllclose ((1 : ℚ) / 1200000) (round_length_mus_full_sample ((1 : ℚ) / 1200000))
        sampleDurationTolerance = false := by
      rw [Bool.eq_false_iff, Ne, npAllclose_iff, hr, sampleDurationTolerance, allcloseAtol,
        abs_of_nonneg (by norm_num : (0 : ℚ) ≤ 1 / 1200000 - 0)]
      norm_num
    unfold length_mus2length_smpl valid_length_mus
    rw [hc]
    rfl

/-- C5 (amended): `length_mus2length_smpl d` succeeds exactly when `d` passes
the np.allclose criterion `|d - r| ≤ 1e-8 + (1e-2/SF)·|r|` against the
nearest full-sample value `r = round_length_mus_full_sample d` (the tolerance
acts as a relative tolerance `rtol`, plus np.allclose's default absolute
`1e-8` µs, not as an absolute `1e-2`-sample bound); on success it returns the
rounded sample count, whose `length_smpl2length_mus` image is `r`, hence the
round trip reproduces `d` only up to that same allclose tolerance. -/
theorem C5_roundtrip_amended (d : ℚ) :
    ((length_mus2length_smpl d).isOk = true ↔
       |d - round_length_mus_full_sample d| ≤
         allcloseAtol + sampleDurationTolerance * |round_length_mus_full_sample d|) ∧
    ∀ n : ℤ, length_mus2length_smpl d = Except.ok n →
      n = roundHalfEven (d * sampleFrequency) ∧
      length_smpl2length_mus n = round_length_mus_full_sample d ∧
      |length_smpl2length_mus n - d| ≤
        allcloseAtol + sampleDurationTolerance * |round_length_mus_full_sample d| := by
  unfold length_mus2length_smpl valid_length_mus
  by_cases h : |d - round_length_mus_full_sample d| ≤
      allcloseAtol + sampleDurationTolerance * |round_length_mus_full_sample d|
  · rw [if_pos ((npAllclose_iff _ _ _).mpr h)]
    refine ⟨⟨fun _ => h, fun _ => rfl⟩, ?_⟩
    intro n hn
    have hn' : n = roundHalfEven (d * sampleFrequency) := by
      simpa using (Except.ok.injEq _ _ ▸ hn).symm
    refine ⟨hn', ?_, ?_⟩
    · rw [hn', length_smpl2length_mus, round_length_mus_full_sample]
    · rw [hn', length_smpl2length_mus]
      rw [show (roundHalfEven (d * sampleFrequency) : ℚ) / sampleFrequency =
        round_length_mus_full_sample d from rfl]
      rw [abs_sub_comm]
      exact h
  · rw [if_neg (fun hc => h ((npAllclose_iff _ _ _).mp hc))]
    exact ⟨⟨fun hco => Bool.noConfusion hco, fun hp => absurd hp h⟩, fun n hn => by simp at hn⟩

/-- C5 witness: the theorem applied at the one-sample duration `1/12000` µs. -/
theorem C5_roundtrip_amended_witness :
    length_mus2length_smpl ((1 : ℚ) / 12000) = Except.ok 1 ∧
    length_smpl2length_mus 1 = (1 : ℚ) / 12000 := by
  have h := (C5_roundtrip_amended ((1 : ℚ) / 12000)).2
  have hr : round_length_mus_full_sample ((1 : ℚ) / 12000) = 1 / 12000 := by
    unfold round_length_mus_full_sample sampleFrequency roundHalfEven
    norm_num
  have hok : length_mus2length_smpl ((1 : ℚ) / 12000) = Except.ok 1 := by
    unfold length_mus2length_smpl valid_length_mus
    rw [if_pos ((npAllclose_iff _ _ _).mpr (by
      rw [hr, sub_self, abs_zero]
      unfold allcloseAtol sampleDurationTolerance sampleFrequency
      positivity))]
    unfold roundHalfEven sampleFrequency
    norm_num
  have h2 := h 1 hok
  exact ⟨hok, h2.2.1.trans hr⟩

/-- Helper: field extraction from the packed control word. -/
theorem controlWord_bits (i n : ℕ) (adv : AdvanceMode) (st : SeqTableStep) :
    ((controlWord i n adv st).testBit 28 = true ↔ i = 0) ∧
    ((controlWord i n adv st).testBit 30 = true ↔ i = n - 1) ∧
    (controlWord i n adv st) / 2 ^ 24 % 2 = (if st.marker_enable then 1 else 0) ∧
    (controlWord i n adv st) / 2 ^ 20 % 4 = advanceMap adv ∧
    (controlWord i n adv st) / 2 ^ 16 % 4 = advanceMap st.advance_mode := by
  have ha : advanceMap adv < 4 := by cases adv <;> simp [advanceMap]
  have hb : advanceMap st.advance_mode < 4 := by cases st.advance_mode <;> simp [advanceMap]
  unfold controlWord
  simp only [Nat.testBit_to_div_mod, decide_eq_true_eq]
  refine ⟨?_, ?_, ?_, ?_, ?_⟩ <;> split_ifs <;> omega

/-- Helper: the encoder emits one row per (step, segment id) pair. -/
theorem encodeRows_length (n slc : ℕ) (adv : AdvanceMode) :
    ∀ (steps : List SeqTableStep) (sids : List ℕ) (i : ℕ),
      (encodeRows n slc adv i steps sids).length = min steps.length sids.length := by
  intro steps
  induction steps with
  | nil => intro sids i; cases sids <;> simp [encodeRows]
  | cons st rest ih =>
      intro sids i
      cases sids with
      | nil => simp [encodeRows]
      | cons sid rest' => simp [encodeRows, ih rest' (i + 1), Nat.succ_min_succ]

/-- Helper: the k-th emitted row is the record of the k-th step and id. -/
theorem encodeRows_get? (n slc : ℕ) (adv : AdvanceMode) :
    ∀ (steps : List SeqTableStep) (sids : List ℕ) (i k : ℕ)
      (st : SeqTableStep) (sid : ℕ),
      steps.get? k = some st → sids.get? k = some sid →
      (encodeRows n slc adv i steps sids).get? k =
        some (stepRecord (i + k) n slc adv st sid) := by
  intro steps
  induction steps with
  | nil => intro sids i k st sid h1 _; simp at h1
  | cons s rest ih =>
      intro sids i k st sid h1 h2
      cases sids with
      | nil => simp at h2
      | cons sid0 rest' =>
        cases k with
        | zero =>
            simp at h1 h2
            subst h1; subst h2
            simp [encodeRows]
        | succ k' =>
            rw [List.get?_cons_succ] at h1 h2
            have := ih rest' (i + 1) k' st sid h1 h2
            simpa [encodeRows, Nat.add_assoc, Nat.add_comm 1 k'] using this

/-- C1: for a sequence of N steps and a matching list of N segment ids, the
encoder succeeds and emits one 24-byte record per step, the concatenation of
the six 4-byte unsigned fields control, sequence_loop_count,
segment_loop_count, segment_id, segment_start_offset, segment_end_offset,
where the control word has bit 28 set iff the row index is 0, bit 30 set iff
the row index is N-1, bit 24 equal to marker_enable, bits 20-21 the
sequence-level advance code and bits 16-17 the step's advance code
(AUTO=0, COND=1, REP=2, SING=3). -/
theorem C1_sequence_table_encoder (seqLoopCount : ℕ) (seqAdvanceMode : AdvanceMode)
    (steps : List SeqTableStep) (segmentIds : List ℕ)
    (hlen : steps.length = segmentIds.length) :
    sequence_table_data_block seqLoopCount seqAdvanceMode steps segmentIds =
      Except.ok (encodeRows steps.length seqLoopCount seqAdvanceMode 0 steps segmentIds) ∧
    (encodeRows steps.length seqLoopCount seqAdvanceMode 0 steps segmentIds).length =
      steps.length ∧
    ∀ k (st : SeqTableStep) (sid : ℕ),
      steps.get? k = some st → segmentIds.get? k = some sid →
      (encodeRows steps.length seqLoopCount seqAdvanceMode 0 steps segmentIds).get? k =
        some (pack32 (controlWord k steps.length seqAdvanceMode st) ++ pack32 seqLoopCount
          ++ pack32 st.loop_count ++ pack32 sid ++ pack32 st.segment_start_offset
          ++ pack32 st.segment_end_offset) ∧
      (stepRecord k steps.length seqLoopCount seqAdvanceMode st sid).length = 24 ∧
      ((controlWord k steps.length seqAdvanceMode st).testBit 28 = true ↔ k = 0) ∧
      ((controlWord k steps.length seqAdvanceMode st).testBit 30 = true ↔
        k = steps.length - 1) ∧
      (controlWord k steps.length seqAdvanceMode st) / 2 ^ 24 % 2 =
        (if st.marker_enable then 1 else 0) ∧
      (controlWord k steps.length seqAdvanceMode st) / 2 ^ 20 % 4 = advanceMap seqAdvanceMode ∧
      (controlWord k steps.length seqAdvanceMode st) / 2 ^ 16 % 4 =
        advanceMap st.advance_mode := by
  refine ⟨?_, ?_, ?_⟩
  · unfold sequence_table_data_block
    rw [if_neg (by omega)]
  · rw [encodeRows_length, hlen, Nat.min_self]
  · intro k st sid h1 h2
    obtain ⟨b28, b30, bm, bsa, bwa⟩ := controlWord_bits k steps.length seqAdvanceMode st
    have hget := encodeRows_get? steps.length seqLoopCount seqAdvanceMode steps segmentIds 0 k
      st sid h1 h2
    rw [Nat.zero_add] at hget
    exact ⟨hget, by simp [stepRecord, pack32], b28, b30, bm, bsa, bwa⟩

/-- C1 witness: the spec's bit-exactness scenario, three steps with advance
modes AUTO, COND, SING, markers true/false/true, loop counts 1/5/1 and
segment ids 10/11/12. -/
theorem C1_sequence_table_encoder_witness :
    (sequence_table_data_block 1 AdvanceMode.AUTO
        [⟨1, AdvanceMode.AUTO, true, 0, 4294967295⟩, ⟨5, AdvanceMode.COND, false, 0, 4294967295⟩,
          ⟨1, AdvanceMode.SING, true, 0, 4294967295⟩] [10, 11, 12]).isOk = true ∧
    ((controlWord 0 3 AdvanceMode.AUTO ⟨1, AdvanceMode.AUTO, true, 0, 4294967295⟩).testBit 28
      = true) ∧
    ((controlWord 2 3 AdvanceMode.AUTO ⟨1, AdvanceMode.SING, true, 0, 4294967295⟩).testBit 30
      = true) := by
  obtain ⟨hok, hl, hrows⟩ := C1_sequence_table_encoder 1 AdvanceMode.AUTO
    [⟨1, AdvanceMode.AUTO, true, 0, 4294967295⟩, ⟨5, AdvanceMode.COND, false, 0, 4294967295⟩,
      ⟨1, AdvanceMode.SING, true, 0, 4294967295⟩] [10, 11, 12] rfl
  refine ⟨by rw [hok]; rfl, ?_, ?_⟩
  · exact (hrows 0 ⟨1, AdvanceMode.AUTO, true, 0, 4294967295⟩ 10 rfl rfl).2.2.1.mpr rfl
  · exact (hrows 2 ⟨1, AdvanceMode.SING, true, 0, 4294967295⟩ 12 rfl rfl).2.2.2.1.mpr rfl


/-- Helper: the padding step's sample length is exactly the missing-sample
count (the `length_smpl` setter divides by the sample frequency and the
derived sample length multiplies back). -/
theorem missingSmplStep_lengthSmpl (steps : List WaveStep) :
    (missingSmplStep steps).lengthSmpl = missingSmpl steps := by
  show roundHalfEven ((missingSmpl steps : ℚ) / sampleFrequency * sampleFrequency) =
    missingSmpl steps
  rw [div_mul_cancel₀ _ (by rw [sampleFrequency]; norm_num : sampleFrequency ≠ 0)]
  exact roundHalfEven_intCast _

/-- C10: a `SequenceStep`-owned data list reports one element more than the
steps actually inserted; indexing at that last position returns the synthetic
wait-type step named `_missing_smpls_` whose sample length is the segment's
missing-sample count, instead of an index error; a Sequence-owned data list
has no such extra element. -/
theorem C10_phantom_padding_element (steps : List WaveStep) :
    dataListLen ListOwner.sequenceStep steps = steps.length + 1 ∧
    dataListGet ListOwner.sequenceStep steps steps.length = some (missingSmplStep steps) ∧
    (missingSmplStep steps).name = "_missing_smpls_" ∧
    (missingSmplStep steps).type = WaveType.wait ∧
    (missingSmplStep steps).lengthSmpl = missingSmpl steps ∧
    dataListLen ListOwner.sequence steps = steps.length ∧
    dataListGet ListOwner.sequence steps steps.length = none := by
  refine ⟨by simp [dataListLen], by simp [dataListGet], rfl, rfl,
    missingSmplStep_lengthSmpl steps, by simp [dataListLen], ?_⟩
  simp [dataListGet, List.get?_eq_none]

/-- Helper: for every integer sum `s`, adding `max(5*64 - s, (-s) % 64)`
lands on a multiple of 64 that is at least 320. -/
theorem padding_total_aligned (s : ℤ) :
    320 ≤ s + max (5 * 64 - s) ((-s) % 64) ∧
    (64 : ℤ) ∣ (s + max (5 * 64 - s) ((-s) % 64)) := by
  rw [max_def]
  split_ifs <;> constructor <;> omega

/-- C4: the implicit padding step's length is `max(320 - s, (-s) mod 64)`
where `s` is the sum of the inserted wave steps' sample lengths, and the
total sample length including that padding is at least 5*64 = 320 samples
and a multiple of 64 samples. -/
theorem C4_minimum_length_and_alignment (steps : List WaveStep) :
    missingSmpl steps =
      max (5 * 64 - (steps.map WaveStep.lengthSmpl).sum)
        ((-(steps.map WaveStep.lengthSmpl).sum) % 64) ∧
    (missingSmplStep steps).lengthSmpl = missingSmpl steps ∧
    320 ≤ (steps.map WaveStep.lengthSmpl).sum + missingSmpl steps ∧
    (64 : ℤ) ∣ ((steps.map WaveStep.lengthSmpl).sum + missingSmpl steps) := by
  exact ⟨rfl, missingSmplStep_lengthSmpl steps,
    (padding_total_aligned _).1, (padding_total_aligned _).2⟩

/-- Helper: a sine step whose amplitude getter raises cannot synthesize. -/
theorem samplesWaveform_amp_error (w : WaveStep) (ht : w.type = WaveType.sine)
    (e : String) (he : w.amplitudes = Except.error e) (sinApprox : ℚ → ℚ → ℤ → ℚ)
    (co : ℤ) : w.samplesWaveform sinApprox co = Except.error e := by
  unfold WaveStep.samplesWaveform
  rw [ht, he]

/-- C3 counterexample: a `WaveStep` of type sine constructed with amplitudes
`[0.6, 0.6]` (broadcast sum `1.2`, exceeding `1.0` by far more than ten times
machine epsilon) passes every check `__init__` runs — the amplitudes setter
only typechecks — so a WaveStep whose amplitude sum exceeds the bound does
exist; the claimed error is raised only once `amplitudes` is read. -/
theorem C3_construction_succeeds_cex :
    (WaveStep.validateInit overAmpSineStep).isOk = true ∧
    overAmpSineStep.broadcastAmplitudes.sum - 1 > 10 * float64Eps ∧
    (WaveStep.amplitudes overAmpSineStep).isOk = false := by
  have hsum : overAmpSineStep.broadcastAmplitudes.sum - 1 > 10 * float64Eps := by
    unfold overAmpSineStep WaveStep.broadcastAmplitudes float64Eps
    norm_num
  refine ⟨?_, hsum, ?_⟩
  · unfold WaveStep.validateInit
    have hv : valid_length_mus ((1 : ℚ) / 12000) = Except.ok () := by
      unfold valid_length_mus
      refine if_pos ((npAllclose_iff _ _ _).mpr ?_)
      have hr : round_length_mus_full_sample ((1 : ℚ) / 12000) = 1 / 12000 := by
        unfold round_length_mus_full_sample sampleFrequency roundHalfEven
        norm_num
      rw [hr, sub_self, abs_zero]
      unfold allcloseAtol sampleDurationTolerance sampleFrequency
      positivity
    rw [show overAmpSineStep.lengthMus = (1 : ℚ) / 12000 from rfl, hv]
    rw [if_neg (by unfold maxLengthSmpl sampleFrequency; norm_num)]
    rw [if_neg (by unfold overAmpSineStep float64Eps; norm_num)]
    rfl
  · unfold WaveStep.amplitudes
    rw [if_pos hsum]
    rfl

/-- C3 (amended): the amplitude-overflow check happens at every read of the
`amplitudes` property — including when sample synthesis starts — not at
assignment or construction: reading succeeds exactly when the broadcast sum
exceeds 1.0 by at most ten times machine epsilon, every successfully read
amplitude list obeys the bound, and a sine step whose broadcast sum violates
the bound fails to synthesize. -/
theorem C3_amplitude_check_on_read (w : WaveStep) :
    (w.amplitudes.isOk = true ↔ w.broadcastAmplitudes.sum - 1 ≤ 10 * float64Eps) ∧
    (∀ amps, w.amplitudes = Except.ok amps →
      amps = w.broadcastAmplitudes ∧ amps.sum ≤ 1 + 10 * float64Eps) ∧
    (w.type = WaveType.sine → w.broadcastAmplitudes.sum - 1 > 10 * float64Eps →
      ∀ (sinApprox : ℚ → ℚ → ℤ → ℚ) (co : ℤ),
        (w.samplesWaveform sinApprox co).isOk = false) := by
  by_cases h : w.broadcastAmplitudes.sum - 1 > 10 * float64Eps
  · have he : w.amplitudes = Except.error "amplitudes sum is larger than one" := by
      unfold WaveStep.amplitudes
      rw [if_pos h]
    refine ⟨?_, ?_, ?_⟩
    · rw [he]
      exact ⟨fun hok => Bool.noConfusion hok, fun hle => ((not_le.mpr h) hle).elim⟩
    · intro amps hamps
      rw [he] at hamps
      exact absurd hamps (by simp)
    · intro ht _ sinApprox co
      rw [samplesWaveform_amp_error w ht _ he sinApprox co]
      rfl
  · have he : w.amplitudes = Except.ok w.broadcastAmplitudes := by
      unfold WaveStep.amplitudes
      rw [if_neg h]
    push_neg at h
    refine ⟨?_, ?_, ?_⟩
    · rw [he]
      exact ⟨fun _ => h, fun _ => rfl⟩
    · intro amps hamps
      rw [he] at hamps
      have hb : w.broadcastAmplitudes = amps := by
        simpa using hamps
      rw [← hb]
      exact ⟨rfl, by linarith⟩
    · intro _ hgt
      exact absurd hgt (not_lt.mpr h)

/-- Helper: the constant branch of `samples_waveform`. -/
theorem samplesWaveform_constant (w : WaveStep) (ht : w.type = WaveType.constant)
    (sinApprox : ℚ → ℚ → ℤ → ℚ) (co : ℤ) :
    w.samplesWaveform sinApprox co = Except.ok ((List.range w.lengthSmpl.toNat).map
      fun _ => int16 (int16 (int16 (truncToZero (w.constant_value * 2047)) * 2 ^ 4)
        + w.marker)) := by
  unfold WaveStep.samplesWaveform
  rw [ht]

/-- Helper: `int16` is the identity on values already in range. -/
theorem int16_eq_self (z : ℤ) (h1 : -(2 ^ 15) ≤ z) (h2 : z < 2 ^ 15) : int16 z = z := by
  unfold int16
  omega

/-- Helper: truncation toward zero respects a symmetric integer bound. -/
theorem truncToZero_bounds (q : ℚ) (c : ℤ) (h1 : -(c : ℚ) ≤ q) (h2 : q ≤ (c : ℚ)) :
    -c ≤ truncToZero q ∧ truncToZero q ≤ c := by
  have hc : 0 ≤ c := by
    by_contra hneg
    push_neg at hneg
    have : (c : ℚ) < -(c : ℚ) := by
      have : (c : ℚ) < 0 := by exact_mod_cast hneg
      linarith
    linarith
  unfold truncToZero
  split_ifs with h0
  · constructor
    · calc -c ≤ 0 := by omega
        _ ≤ ⌊q⌋ := Int.floor_nonneg.mpr h0
    · calc ⌊q⌋ ≤ ⌊(c : ℚ)⌋ := Int.floor_mono h2
        _ = c := Int.floor_intCast c
  · push_neg at h0
    constructor
    · have hcq : ((-c : ℤ) : ℚ) ≤ q := by push_cast; linarith
      calc -c = ⌈((-c : ℤ) : ℚ)⌉ := (Int.ceil_intCast _).symm
        _ ≤ ⌈q⌉ := Int.ceil_mono hcq
    · calc ⌈q⌉ ≤ (0 : ℤ) := Int.ceil_le.mpr (by exact_mod_cast le_of_lt h0)
        _ ≤ c := hc

/-- Helper: the marker value lies in `[0, 3]`. -/
theorem marker_bounds (w : WaveStep) : 0 ≤ w.marker ∧ w.marker ≤ 3 := by
  unfold WaveStep.marker
  split_ifs <;> norm_num

/-- C9 counterexample: synthesizing the constant step with value `0.7` and
`smpl_marker` set yields the sample `1432 * 16 + 1 = 22913` — `np.int16`
truncates `0.7 * 2047 = 1432.9` toward zero — whereas the claimed
`round(constant_value * 2047)` would give `1433 * 16 + 1 = 22929`. -/
theorem C9_truncation_cex :
    WaveStep.samplesWaveform (fun _ _ _ => 0) truncCexStep 0 = Except.ok [22913] ∧
    (22913 : ℤ) ≠ specRoundedConstantSample (7 / 10) * 2 ^ 4 + 1 := by
  constructor
  · rw [samplesWaveform_constant truncCexStep rfl]
    have hlen : truncCexStep.lengthSmpl = 1 := by
      unfold WaveStep.lengthSmpl truncCexStep sampleFrequency roundHalfEven
      norm_num
    have htr : truncToZero (truncCexStep.constant_value * 2047) = 1432 := by
      unfold truncCexStep truncToZero
      rw [if_pos (by norm_num)]
      rw [show (7 : ℚ) / 10 * 2047 = 14329 / 10 by norm_num]
      norm_num [Int.floor_eq_iff]
    rw [hlen, htr]
    have hmk : truncCexStep.marker = 1 := by
      unfold WaveStep.marker truncCexStep
      norm_num
    rw [hmk]
    have hv : ((List.range (Int.toNat 1)).map fun _ =>
        int16 (int16 (int16 1432 * 2 ^ 4) + 1)) = [22913] := by decide
    rw [hv]
  · have : specRoundedConstantSample (7 / 10) = 1433 := by
      unfold specRoundedConstantSample roundHalfEven
      rw [show (7 : ℚ) / 10 * 2047 = 14329 / 10 by norm_num]
      norm_num [Int.floor_eq_iff]
    rw [this]
    norm_num

/-- C9 (amended): for a constant-type step with `constant_value` in `[-1, 1]`,
every output sample equals `trunc(constant_value * 2047)` — `np.int16`
truncates toward zero rather than rounding to nearest — shifted into the
upper 12 bits (times `2^4`), with the marker `smpl_marker + 2*sync_marker`
occupying the low 4 bits (the addition cannot carry into the shifted value,
so it coincides with an OR). -/
theorem C9_constant_synthesis_amended (w : WaveStep) (sinApprox : ℚ → ℚ → ℤ → ℚ)
    (co : ℤ) (ht : w.type = WaveType.constant)
    (hcv1 : -1 ≤ w.constant_value) (hcv2 : w.constant_value ≤ 1) :
    w.samplesWaveform sinApprox co =
      Except.ok (List.replicate w.lengthSmpl.toNat
        (truncToZero (w.constant_value * 2047) * 2 ^ 4 + w.marker)) ∧
    (truncToZero (w.constant_value * 2047) * 2 ^ 4 + w.marker) % 2 ^ 4 = w.marker ∧
    (truncToZero (w.constant_value * 2047) * 2 ^ 4 + w.marker) / 2 ^ 4 =
      truncToZero (w.constant_value * 2047) := by
  have hq1 : -((2047 : ℤ) : ℚ) ≤ w.constant_value * 2047 := by
    push_cast
    nlinarith
  have hq2 : w.constant_value * 2047 ≤ ((2047 : ℤ) : ℚ) := by
    push_cast
    nlinarith
  obtain ⟨hb1, hb2⟩ := truncToZero_bounds (w.constant_value * 2047) 2047 hq1 hq2
  obtain ⟨hm1, hm2⟩ := marker_bounds w
  have e1 : int16 (truncToZero (w.constant_value * 2047)) =
      truncToZero (w.constant_value * 2047) := int16_eq_self _ (by omega) (by omega)
  have e2 : int16 (truncToZero (w.constant_value * 2047) * 2 ^ 4) =
      truncToZero (w.constant_value * 2047) * 2 ^ 4 := int16_eq_self _ (by omega) (by omega)
  have e3 : int16 (truncToZero (w.constant_value * 2047) * 2 ^ 4 + w.marker) =
      truncToZero (w.constant_value * 2047) * 2 ^ 4 + w.marker :=
    int16_eq_self _ (by omega) (by omega)
  refine ⟨?_, by omega, by omega⟩
  rw [samplesWaveform_constant w ht]
  simp only [e1, e2, e3]
  rw [List.map_const', List.length_range]

/-- C9 witness: the amended theorem applied to the concrete constant step
with value `0.5` and `smpl_marker` set. -/
theorem C9_constant_synthesis_amended_witness :
    WaveStep.samplesWaveform (fun _ _ _ => 0) halfConstStep 0 =
      Except.ok (List.replicate halfConstStep.lengthSmpl.toNat
        (truncToZero (halfConstStep.constant_value * 2047) * 2 ^ 4
          + halfConstStep.marker)) := by
  exact (C9_constant_synthesis_amended halfConstStep (fun _ _ _ => 0) 0 rfl
    (by unfold halfConstStep; norm_num) (by unfold halfConstStep; norm_num)).1


theorem ChanSeqs.get_update (s : ChanSeqs) (a a' : Awg) (ch ch' : ℕ)
    (f : List Seg → List Seg) :
    (s.update a' ch' f).get a ch =
      if a = a' ∧ ch = ch' ∧ (ch = 1 ∨ ch = 2) then f (s.get a ch) else s.get a ch := by
  cases a <;> cases a' <;>
    rcases ch with _ | (_ | (_ | ch)) <;> rcases ch' with _ | (_ | (_ | ch')) <;>
    simp [ChanSeqs.update, ChanSeqs.get]

theorem ChanSeqs.updateAwg_get_not_mem (s : ChanSeqs) (a : Awg) (chl : List ℕ)
    (f : ℕ → List Seg → List Seg) (a2 : Awg) (ch : ℕ)
    (h : a2 ≠ a ∨ ch ∉ chl) :
    (s.updateAwg a chl f).get a2 ch = s.get a2 ch := by
  induction chl generalizing s with
  | nil => rfl
  | cons c rest ih =>
      have hne : ¬(a2 = a ∧ ch = c ∧ (ch = 1 ∨ ch = 2)) := by
        rcases h with h | h
        · exact fun hc => h hc.1
        · exact fun hc => h (hc.2.1 ▸ List.mem_cons_self c rest)
      have hrest : a2 ≠ a ∨ ch ∉ rest := by
        rcases h with h | h
        · exact Or.inl h
        · exact Or.inr (fun hm => h (List.mem_cons_of_mem c hm))
      show ((s.update a c (f c)).updateAwg a rest f).get a2 ch = s.get a2 ch
      rw [ih _ hrest, ChanSeqs.get_update, if_neg hne]

theorem ChanSeqs.updateAwg_get_mem (s : ChanSeqs) (a : Awg) (chl : List ℕ)
    (f : ℕ → List Seg → List Seg) (ch : ℕ)
    (hnd : chl.Nodup) (hmem : ch ∈ chl) (h12 : ∀ c ∈ chl, c = 1 ∨ c = 2) :
    (s.updateAwg a chl f).get a ch = f ch (s.get a ch) := by
  induction chl generalizing s with
  | nil => exact absurd hmem (List.not_mem_nil ch)
  | cons c rest ih =>
      show ((s.update a c (f c)).updateAwg a rest f).get a ch = f ch (s.get a ch)
      rcases List.mem_cons.mp hmem with rfl | hmem'
      · rw [ChanSeqs.updateAwg_get_not_mem _ _ _ _ _ _
          (Or.inr ((List.nodup_cons.mp hnd).1))]
        rw [ChanSeqs.get_update,
          if_pos ⟨rfl, rfl, h12 ch (List.mem_cons_self ch rest)⟩]
      · have hne : ch ≠ c := fun hc => (List.nodup_cons.mp hnd).1 (hc ▸ hmem')
        rw [ih _ (List.nodup_cons.mp hnd).2 hmem'
          (fun x hx => h12 x (List.mem_cons_of_mem c hx))]
        rw [ChanSeqs.get_update, if_neg (fun hc => hne hc.2.1)]


theorem startNewSegment_ok (m : MultiChSeq) (sn : String) (lc : ℕ) (m' : MultiChSeq)
    (h : m.startNewSegment sn lc = Except.ok m') :
    m'.status = m.status ∧ m'.chDict = m.chDict := by
  unfold MultiChSeq.startNewSegment at h
  by_cases hgt : lc > 2 ^ 32 - 1
  · rw [if_pos hgt] at h
    exact Except.noConfusion h
  · rw [if_neg hgt] at h
    obtain rfl := Except.ok.inj h
    exact ⟨rfl, rfl⟩

theorem addStepWait_ok (m : MultiChSeq) (lm : ℚ) (nm : String) (m' : MultiChSeq)
    (h : m.addStepWait lm nm = Except.ok m') :
    m.status = 0 ∧ m'.status = m.status ∧ m'.chDict = m.chDict := by
  unfold MultiChSeq.addStepWait at h
  by_cases hs : m.status ≠ 0
  · rw [if_pos hs] at h
    exact Except.noConfusion h
  · rw [if_neg hs] at h
    push_neg at hs
    refine ⟨hs, ?_⟩
    split at h
    · exact Except.noConfusion h
    · split at h
      · exact Except.noConfusion h
      · obtain rfl := Except.ok.inj h
        exact ⟨rfl, rfl⟩

theorem fixGo_ok (ignore : Bool) (order : List Awg) :
    ∀ (acc : List ℚ) (m m' : MultiChSeq),
      fixGo ignore order acc m = Except.ok m' →
      m'.status = m.status ∧ m'.chDict = m.chDict := by
  induction order with
  | nil =>
      intro acc m m' h
      unfold fixGo at h
      obtain rfl := Except.ok.inj h
      exact ⟨rfl, rfl⟩
  | cons a rest ih =>
      intro acc m m' h
      unfold fixGo at h
      split at h
      · exact Except.noConfusion h
      · rename_i ws hws
        dsimp only at h
        by_cases hall : ((acc ++ ws).all fun i => decide (i = 0)) = true
        · rw [if_pos hall] at h
          obtain rfl := Except.ok.inj h
          exact ⟨rfl, rfl⟩
        · rw [if_neg hall] at h
          split at h
          · exact Except.noConfusion h
          · rename_i m1 h1
            split at h
            · exact Except.noConfusion h
            · rename_i m2 h2
              split at h
              · exact Except.noConfusion h
              · obtain ⟨hs1, hc1⟩ := startNewSegment_ok _ _ _ _ h1
                obtain ⟨_, hs2, hc2⟩ := addStepWait_ok _ _ _ _ h2
                obtain ⟨hs3, hc3⟩ := ih _ _ _ h
                exact ⟨by rw [hs3, hs2, hs1], by rw [hc3, hc2, hc1]⟩

theorem finalize_ok_cases (m : MultiChSeq) (order : List Awg) (ignore : Bool)
    (m' : MultiChSeq) (h : m.finalize order ignore = Except.ok m') :
    m.status = 0 ∧ ∃ m1, m.fixAvgRfPower order ignore = Except.ok m1 ∧
      m' = { (if m1.chDict.hasDevice masterAwg ∧ m1.chDict.numDevices > 1
              then m1.setMasterTriggerSettings.setSlaveTriggerSettings else m1)
             with status := 1 } := by
  unfold MultiChSeq.finalize at h
  by_cases hs : m.status ≠ 0
  · rw [if_pos hs] at h
    exact Except.noConfusion h
  · rw [if_neg hs] at h
    push_neg at hs
    refine ⟨hs, ?_⟩
    split at h
    · exact Except.noConfusion h
    · rename_i m1 h1
      exact ⟨m1, h1, (Except.ok.inj h).symm⟩

/-- C6: the lifecycle only moves forward: `finalize` succeeds only from
status 0 and moves to 1, `precompile` succeeds only from status 1 and moves
to 2, `add_step` fails whenever the program has left the building state, and
none of the modelled operations ever decreases the status. -/
theorem C6_lifecycle_monotone (m : MultiChSeq) :
    (∀ (order : List Awg) (ignore : Bool) m',
      m.finalize order ignore = Except.ok m' → m.status = 0 ∧ m'.status = 1) ∧
    (m.status ≠ 0 → ∀ order ignore, (m.finalize order ignore).isOk = false) ∧
    (∀ m', m.precompile = Except.ok m' → m.status = 1 ∧ m'.status = 2) ∧
    (m.status ≠ 1 → (m.precompile).isOk = false) ∧
    (m.status ≠ 0 → ∀ lm nm, (m.addStepWait lm nm).isOk = false) ∧
    (∀ lm nm m', m.addStepWait lm nm = Except.ok m' →
      m.status = 0 ∧ m'.status = m.status) ∧
    (∀ sn lc m', m.startNewSegment sn lc = Except.ok m' → m'.status = m.status) ∧
    (∀ (order : List Awg) (ignore : Bool) m',
      m.finalize order ignore = Except.ok m' → m.status ≤ m'.status) ∧
    (∀ m', m.precompile = Except.ok m' → m.status ≤ m'.status) := by
  have hfin : ∀ (order : List Awg) (ignore : Bool) m',
      m.finalize order ignore = Except.ok m' → m.status = 0 ∧ m'.status = 1 := by
    intro order ignore m' h
    obtain ⟨hs, m1, _, rfl⟩ := finalize_ok_cases m order ignore m' h
    exact ⟨hs, rfl⟩
  have hpre : ∀ m', m.precompile = Except.ok m' → m.status = 1 ∧ m'.status = 2 := by
    intro m' h
    unfold MultiChSeq.precompile at h
    by_cases hs : m.status ≠ 1
    · rw [if_pos hs] at h
      exact Except.noConfusion h
    · rw [if_neg hs] at h
      push_neg at hs
      obtain rfl := Except.ok.inj h
      exact ⟨hs, rfl⟩
  refine ⟨hfin, ?_, hpre, ?_, ?_, ?_, ?_, ?_, ?_⟩
  · intro hs order ignore
    unfold MultiChSeq.finalize
    rw [if_pos hs]
    rfl
  · intro hs
    unfold MultiChSeq.precompile
    rw [if_pos hs]
    rfl
  · intro hs lm nm
    unfold MultiChSeq.addStepWait
    rw [if_pos hs]
    rfl
  · intro lm nm m' h
    obtain ⟨h0, h1, _⟩ := addStepWait_ok m lm nm m' h
    exact ⟨h0, h1⟩
  · intro sn lc m' h
    exact (startNewSegment_ok m sn lc m' h).1
  · intro order ignore m' h
    obtain ⟨h0, h1⟩ := hfin order ignore m' h
    omega
  · intro m' h
    obtain ⟨h0, h1⟩ := hpre m' h
    omega

/-- C7: trigger-synchronization segments are injected only when more than one
device key is present. With a single device the finalized per-channel
sequences are exactly the power-corrected ones; with multiple devices (and
the master present, which `valid_ch_dict` guarantees at construction), every
master-device channel gets the trigger segment (a sync-marker pulse on the
master trigger channel followed by the wait that pads the trigger-delay
interval) prepended (and the trigger-safety wait appended), while every
channel of the non-master device gets the zero-length SING-advance wait
segment appended. -/
theorem C7_trigger_injection (m m1 m' : MultiChSeq) (order : List Awg) (ignore : Bool)
    (hfix : m.fixAvgRfPower order ignore = Except.ok m1)
    (hfin : m.finalize order ignore = Except.ok m')
    (hndg : (m1.chDict.channels Awg.g2).Nodup)
    (h12g : ∀ c ∈ m1.chDict.channels Awg.g2, c = 1 ∨ c = 2)
    (h12m : ∀ c ∈ m1.chDict.channels Awg.m128, c = 1 ∨ c = 2)
    (hndm : (m1.chDict.channels Awg.m128).Nodup) :
    (m1.chDict.numDevices ≤ 1 → m'.seqs = m1.seqs) ∧
    (m1.chDict.hasDevice masterAwg = true → m1.chDict.numDevices > 1 →
      (∀ ch ∈ m1.chDict.channels Awg.g2,
        m'.seqs.get Awg.g2 ch =
          triggerStep ch :: m1.seqs.get Awg.g2 ch ++ [wTrigSafetyStep]) ∧
      (∀ ch ∈ m1.chDict.channels Awg.m128,
        m'.seqs.get Awg.m128 ch = m1.seqs.get Awg.m128 ch ++ [slaveWaitTriggerStep])) ∧
    (triggerStep masterTriggerChannel).steps.map
        (fun w => (w.name, w.lengthMus, w.sync_marker)) =
      [("trigger", triggerLengthMus, true),
       ("waittrigger", triggerDelayLengthMus - triggerLengthMus, false)] ∧
    slaveWaitTriggerStep.advance_mode = AdvanceMode.SING ∧
    slaveWaitTriggerStep.steps.map (fun w => (w.lengthMus, w.type)) =
      [(0, WaveType.wait)] := by
  obtain ⟨hs, m1x, hfix2, rfl⟩ := finalize_ok_cases m order ignore m' hfin
  rw [hfix] at hfix2
  obtain rfl := Except.ok.inj hfix2
  refine ⟨?_, ?_, ?_, rfl, rfl⟩
  · intro hdev
    have hneg : ¬(m1.chDict.hasDevice masterAwg ∧ m1.chDict.numDevices > 1) :=
      fun hc => absurd hc.2 (not_lt.mpr hdev)
    rw [if_neg hneg]
  · intro hmaster hdev
    rw [if_pos ⟨by rw [hmaster], hdev⟩]
    constructor
    · intro ch hch
      show ((m1.setMasterTriggerSettings.setSlaveTriggerSettings).seqs).get Awg.g2 ch = _
      unfold MultiChSeq.setSlaveTriggerSettings MultiChSeq.setMasterTriggerSettings
      dsimp only
      rw [ChanSeqs.updateAwg_get_not_mem _ _ _ _ _ _ (Or.inl (by simp))]
      rw [ChanSeqs.updateAwg_get_mem _ _ _ _ _ hndg hch h12g]
    · intro ch hch
      show ((m1.setMasterTriggerSettings.setSlaveTriggerSettings).seqs).get Awg.m128 ch = _
      unfold MultiChSeq.setSlaveTriggerSettings MultiChSeq.setMasterTriggerSettings
      dsimp only
      rw [ChanSeqs.updateAwg_get_mem _ _ _ _ _ hndm hch h12m]
      rw [ChanSeqs.updateAwg_get_not_mem _ _ _ _ _ _ (Or.inl (by simp))]
  · simp [triggerStep, masterTriggerChannel]

theorem sumExcept_cons (f : α → Except String ℚ) (x : α) (xs : List α) (v rest : ℚ)
    (hx : f x = Except.ok v) (hxs : sumExcept f xs = Except.ok rest) :
    sumExcept f (x :: xs) = Except.ok (v + rest) := by
  unfold sumExcept
  rw [hx, hxs]

theorem powerCexStep_lengthSmpl : powerCexStep.lengthSmpl = 384 := by
  unfold WaveStep.lengthSmpl powerCexStep blm sampleFrequency roundHalfEven
  norm_num

theorem powerCexStep_missing : missingSmpl [powerCexStep] = 0 := by
  unfold missingSmpl
  rw [List.map_cons, List.map_nil, List.sum_cons, List.sum_nil, powerCexStep_lengthSmpl]
  decide

theorem powerCexStep_power : powerCexStep.normalizedAvgSinePower = Except.ok (1 / 4) := by
  have hamp : powerCexStep.amplitudes = Except.ok [1 / 2] := by
    unfold WaveStep.amplitudes
    have hb : powerCexStep.broadcastAmplitudes = [1 / 2] := rfl
    rw [hb, if_neg (by unfold float64Eps; norm_num)]
  show (match powerCexStep.amplitudes with
    | Except.error e => Except.error e
    | Except.ok amps => Except.ok ((amps.map (fun a => a ^ 2)).sum)) = Except.ok (1 / 4)
  rw [hamp]
  simp only [List.map_cons, List.map_nil, List.sum_cons, List.sum_nil, Except.ok.injEq]
  norm_num

theorem powerCexPad_lengthMus : (missingSmplStep [powerCexStep]).lengthMus = 0 := by
  unfold missingSmplStep waveStepOfLengthSmpl
  rw [powerCexStep_missing]
  norm_num

theorem powerCexSeg_power : powerCexSeg.normalizedAvgSinePower = Except.ok (1 / 4) := by
  have hpadpow : (missingSmplStep [powerCexStep]).normalizedAvgSinePower = Except.ok 0 := rfl
  have hnum : sumExcept (fun w =>
      match w.normalizedAvgSinePower with
      | Except.error e => Except.error e
      | Except.ok p => Except.ok (w.lengthMus * p)) powerCexSeg.effectiveSteps =
      Except.ok (powerCexStep.lengthMus * (1 / 4) +
        ((missingSmplStep [powerCexStep]).lengthMus * 0 + 0)) := by
    refine sumExcept_cons _ _ _ _ _ ?_ (sumExcept_cons _ _ _ _ _ ?_ rfl)
    · show (match powerCexStep.normalizedAvgSinePower with
        | Except.error e => Except.error e
        | Except.ok p => Except.ok (powerCexStep.lengthMus * p)) = _
      rw [powerCexStep_power]
    · show (match (missingSmplStep [powerCexStep]).normalizedAvgSinePower with
        | Except.error e => Except.error e
        | Except.ok p => Except.ok ((missingSmplStep [powerCexStep]).lengthMus * p)) = _
      rw [hpadpow]
  show (match sumExcept (fun w =>
      match w.normalizedAvgSinePower with
      | Except.error e => Except.error e
      | Except.ok p => Except.ok (w.lengthMus * p)) powerCexSeg.effectiveSteps with
    | Except.error e => Except.error e
    | Except.ok num => Except.ok (num / powerCexSeg.repeatedLengthMus)) = Except.ok (1 / 4)
  rw [hnum]
  have hrep : powerCexSeg.repeatedLengthMus =
      (powerCexStep.lengthMus + ((missingSmplStep [powerCexStep]).lengthMus + 0)) *
        ((1 : ℕ) : ℚ) := rfl
  simp only [Except.ok.injEq, hrep, powerCexPad_lengthMus]
  rw [show powerCexStep.lengthMus = blm from rfl]
  unfold blm sampleFrequency
  push_cast
  norm_num

theorem powerCexSeq_power :
    seqNormalizedAvgSinePower [powerCexSeg] = Except.ok (1 / 4) := by
  have hnum : sumExcept (fun s =>
      match s.normalizedAvgSinePower with
      | Except.error e => Except.error e
      | Except.ok p => Except.ok (s.repeatedLengthMus * p)) [powerCexSeg] =
      Except.ok (powerCexSeg.repeatedLengthMus * (1 / 4) + 0) := by
    refine sumExcept_cons _ _ _ _ _ ?_ rfl
    show (match powerCexSeg.normalizedAvgSinePower with
      | Except.error e => Except.error e
      | Except.ok p => Except.ok (powerCexSeg.repeatedLengthMus * p)) = _
    rw [powerCexSeg_power]
  show (match sumExcept (fun s =>
      match s.normalizedAvgSinePower with
      | Except.error e => Except.error e
      | Except.ok p => Except.ok (s.repeatedLengthMus * p)) [powerCexSeg] with
    | Except.error e => Except.error e
    | Except.ok num => Except.ok (num / seqLengthMus [powerCexSeg])) = Except.ok (1 / 4)
  rw [hnum]
  have hsl : seqLengthMus [powerCexSeg] = powerCexSeg.repeatedLengthMus + 0 := rfl
  have hrep : powerCexSeg.repeatedLengthMus =
      (powerCexStep.lengthMus + ((missingSmplStep [powerCexStep]).lengthMus + 0)) *
        ((1 : ℕ) : ℚ) := rfl
  simp only [Except.ok.injEq, hsl, hrep, powerCexPad_lengthMus]
  rw [show powerCexStep.lengthMus = blm from rfl]
  unfold blm sampleFrequency
  push_cast
  norm_num

/-- C2 (code bug): with the device iteration order that visits '2g' (whose
channels have no configured power ceiling) first, `fix_avg_rf_power` hits its
loop-local early return — `if all(flatten(awtd)): return` is indented inside
the per-device loop — and returns without ever examining '128m' channel 1,
although that channel's physical average power (10 W amplifier gain times
normalized power 1/4) is 2.5 times its 1.0 W ceiling: no corrective segment
is appended, no error is raised. -/
theorem C2_power_budget_skipped_bug :
    powerCexMcas.fixAvgRfPower [Awg.g2, Awg.m128] false = Except.ok powerCexMcas ∧
    seqNormalizedAvgSinePower (powerCexMcas.seqs.get Awg.m128 1) = Except.ok (1 / 4) ∧
    maxSineAvgPower Awg.m128 1 = some 1 ∧
    amplifierPower Awg.m128 1 * (1 / 4) > 1 := by
  refine ⟨rfl, ?_, rfl, by unfold amplifierPower; norm_num⟩
  show seqNormalizedAvgSinePower [powerCexSeg] = Except.ok (1 / 4)
  exact powerCexSeq_power

/-- C6 witness: a single-device program walks the whole lifecycle
0 → 1 → 2, and mutation is refused once it has left the building state. -/
theorem C6_lifecycle_monotone_witness :
    singleDeviceMcas.status = 0 ∧
    singleDeviceMcas.finalize [Awg.g2, Awg.m128] false =
      Except.ok { singleDeviceMcas with status := 1 } ∧
    MultiChSeq.precompile { singleDeviceMcas with status := 1 } =
      Except.ok { singleDeviceMcas with status := 2 } ∧
    (MultiChSeq.addStepWait { singleDeviceMcas with status := 1 } blm "x").isOk = false ∧
    ((MultiChSeq.finalize { singleDeviceMcas with status := 1 }
      [Awg.g2, Awg.m128] false)).isOk = false := by
  have h := C6_lifecycle_monotone { singleDeviceMcas with status := 1 }
  exact ⟨rfl, rfl, rfl, h.2.2.2.2.1 (by decide) blm "x",
    h.2.1 (by decide) [Awg.g2, Awg.m128] false⟩

/-- C7 witness: finalizing a two-device program with empty caller content
prepends the trigger segment and appends the safety segment on both master
channels and appends the wait-trigger segment on the slave channels. -/
theorem C7_trigger_injection_witness :
    fullEmptyMcas.finalize [Awg.g2, Awg.m128] false =
      Except.ok { fullEmptyMcas.setMasterTriggerSettings.setSlaveTriggerSettings
        with status := 1 } ∧
    ({ fullEmptyMcas.setMasterTriggerSettings.setSlaveTriggerSettings
        with status := 1 } : MultiChSeq).seqs.get Awg.g2 1 =
      [triggerStep 1, wTrigSafetyStep] ∧
    ({ fullEmptyMcas.setMasterTriggerSettings.setSlaveTriggerSettings
        with status := 1 } : MultiChSeq).seqs.get Awg.g2 2 =
      [triggerStep 2, wTrigSafetyStep] ∧
    ({ fullEmptyMcas.setMasterTriggerSettings.setSlaveTriggerSettings
        with status := 1 } : MultiChSeq).seqs.get Awg.m128 1 =
      [slaveWaitTriggerStep] := by
  have hfix : fullEmptyMcas.fixAvgRfPower [Awg.g2, Awg.m128] false =
      Except.ok fullEmptyMcas := rfl
  have hfin : fullEmptyMcas.finalize [Awg.g2, Awg.m128] false =
      Except.ok { fullEmptyMcas.setMasterTriggerSettings.setSlaveTriggerSettings
        with status := 1 } := rfl
  obtain ⟨hsingle, hmulti, htrig, hsing, hzero⟩ :=
    C7_trigger_injection fullEmptyMcas fullEmptyMcas
      { fullEmptyMcas.setMasterTriggerSettings.setSlaveTriggerSettings with status := 1 }
      [Awg.g2, Awg.m128] false hfix hfin (by decide) (by decide) (by decide) (by decide)
  obtain ⟨hg2, hm⟩ := hmulti rfl (by decide)
  refine ⟨hfin, ?_, ?_, ?_⟩
  · rw [hg2 1 (by decide)]
    rfl
  · rw [hg2 2 (by decide)]
    rfl
  · rw [hm 1 (by decide)]
    rfl


theorem resolveOwnerIdx_append (l : List SeqEntry) (x : SeqEntry) (i : ℕ)
    (hi : i < l.length) :
    resolveOwnerIdx (l ++ [x]) i = resolveOwnerIdx l i := by
  induction i using Nat.strong_induction_on with
  | _ i ih =>
    rw [resolveOwnerIdx, resolveOwnerIdx, List.get?_append hi]
    cases hg : l.get? i with
    | none => rfl
    | some e =>
        cases e with
        | owned s => rfl
        | reuse t n =>
            dsimp only
            by_cases ht : t < i
            · rw [dif_pos ht, dif_pos ht, ih t ht (ht.trans hi)]
            · rw [dif_neg ht, dif_neg ht]

theorem resolveLengthSmpl_append (l : List SeqEntry) (x : SeqEntry) (i : ℕ)
    (hi : i < l.length) :
    resolveLengthSmpl (l ++ [x]) i = resolveLengthSmpl l i := by
  induction i using Nat.strong_induction_on with
  | _ i ih =>
    rw [resolveLengthSmpl, resolveLengthSmpl, List.get?_append hi]
    cases hg : l.get? i with
    | none => rfl
    | some e =>
        cases e with
        | owned s => rfl
        | reuse t n =>
            dsimp only
            by_cases ht : t < i
            · rw [dif_pos ht, dif_pos ht, ih t ht (ht.trans hi)]
            · rw [dif_neg ht, dif_neg ht]

theorem lookup_append_some (asg tail : List (ℕ × ℕ)) (k v : ℕ)
    (h : asg.lookup k = some v) : (asg ++ tail).lookup k = some v := by
  induction asg with
  | nil => simp [List.lookup] at h
  | cons p rest ih =>
      rw [List.cons_append]
      rw [List.lookup] at h ⊢
      by_cases hk : k == p.1
      · rw [show (k == p.1) = true from (by simpa using hk)] at h ⊢
        exact h
      · rw [show (k == p.1) = false from (by simpa using hk)] at h ⊢
        exact ih h

theorem lookup_concat_self (asg : List (ℕ × ℕ)) (j sid : ℕ) :
    ∃ v, (asg ++ [(j, sid)]).lookup j = some v := by
  induction asg with
  | nil => exact ⟨sid, by simp [List.lookup]⟩
  | cons p rest ih =>
      rw [List.cons_append, List.lookup]
      by_cases hk : j == p.1
      · rw [show (j == p.1) = true from (by simpa using hk)]
        exact ⟨p.2, rfl⟩
      · rw [show (j == p.1) = false from (by simpa using hk)]
        exact ih

theorem writeSeqGo_asg_prefix (l : List SeqEntry) :
    ∀ (k i nextSid : ℕ) (ids : List ℕ) (ups : List (ℕ × ℤ)) (asg : List (ℕ × ℕ))
      (r : WriteState), l.length - i ≤ k →
      writeSeqGo l i nextSid ids ups asg = Except.ok r →
      ∃ tail, r.asg = asg ++ tail := by
  intro k
  induction k with
  | zero =>
      intro i nextSid ids ups asg r hk h
      rw [writeSeqGo, List.get?_eq_none.mpr (by omega)] at h
      obtain rfl := Except.ok.inj h
      exact ⟨[], by simp⟩
  | succ k ih =>
      intro i nextSid ids ups asg r hk h
      rw [writeSeqGo] at h
      cases hg : l.get? i with
      | none =>
          rw [hg] at h
          obtain rfl := Except.ok.inj h
          exact ⟨[], by simp⟩
      | some e =>
          rw [hg] at h
          have hlt : i < l.length := (List.get?_eq_some.mp hg).1
          cases e with
          | owned s =>
              obtain ⟨tail, htail⟩ := ih (i + 1) (nextSid + 1) (ids ++ [nextSid])
                (ups ++ [(nextSid, 2 * s.lengthSmpl)]) (asg ++ [(i, nextSid)]) r
                (by omega) h
              exact ⟨(i, nextSid) :: tail, by simpa using htail⟩
          | reuse t n =>
              dsimp only at h
              cases ho : resolveOwnerIdx l i with
              | none =>
                  rw [ho] at h
                  exact Except.noConfusion h
              | some j =>
                  rw [ho] at h
                  dsimp only at h
                  cases hlu : asg.lookup j with
                  | none =>
                      rw [hlu] at h
                      exact Except.noConfusion h
                  | some sid =>
                      rw [hlu] at h
                      exact ih (i + 1) nextSid (ids ++ [sid]) ups asg r (by omega) h

theorem writeSeqGo_asg_lookup (l : List SeqEntry) :
    ∀ (k i nextSid : ℕ) (ids : List ℕ) (ups : List (ℕ × ℤ)) (asg : List (ℕ × ℕ))
      (r : WriteState), l.length - i ≤ k →
      writeSeqGo l i nextSid ids ups asg = Except.ok r →
      ∀ (j : ℕ) (s : Seg), l.get? j = some (SeqEntry.owned s) → i ≤ j →
        ∃ sid, r.asg.lookup j = some sid := by
  intro k
  induction k with
  | zero =>
      intro i nextSid ids ups asg r hk h j s hj hij
      have := (List.get?_eq_some.mp hj).1
      omega
  | succ k ih =>
      intro i nextSid ids ups asg r hk h j s hj hij
      rw [writeSeqGo] at h
      cases hg : l.get? i with
      | none =>
          have := (List.get?_eq_some.mp hj).1
          have := List.get?_eq_none.mp hg
          omega
      | some e =>
          rw [hg] at h
          have hlt : i < l.length := (List.get?_eq_some.mp hg).1
          cases e with
          | owned s0 =>
              by_cases hij2 : i = j
              · subst hij2
                obtain ⟨tail, htail⟩ := writeSeqGo_asg_prefix l (l.length - (i + 1))
                  (i + 1) (nextSid + 1) (ids ++ [nextSid])
                  (ups ++ [(nextSid, 2 * s0.lengthSmpl)]) (asg ++ [(i, nextSid)]) r
                  (le_refl _) h
                obtain ⟨v, hv⟩ := lookup_concat_self asg i nextSid
                exact ⟨v, by rw [htail]; exact lookup_append_some _ _ _ _ hv⟩
              · exact ih (i + 1) (nextSid + 1) (ids ++ [nextSid])
                  (ups ++ [(nextSid, 2 * s0.lengthSmpl)]) (asg ++ [(i, nextSid)]) r
                  (by omega) h j s hj (by omega)
          | reuse t n =>
              dsimp only at h
              have hij2 : i ≠ j := fun hc => by rw [hc, hj] at hg; exact SeqEntry.noConfusion (Option.some.inj hg)
              cases ho : resolveOwnerIdx l i with
              | none =>
                  rw [ho] at h
                  exact Except.noConfusion h
              | some j2 =>
                  rw [ho] at h
                  dsimp only at h
                  cases hlu : asg.lookup j2 with
                  | none =>
                      rw [hlu] at h
                      exact Except.noConfusion h
                  | some sid =>
                      rw [hlu] at h
                      exact ih (i + 1) nextSid (ids ++ [sid]) ups asg r (by omega) h j s hj
                        (by omega)

theorem writeSeqGo_append_run (l : List SeqEntry) (x : SeqEntry) :
    ∀ (k i nextSid : ℕ) (ids : List ℕ) (ups : List (ℕ × ℤ)) (asg : List (ℕ × ℕ))
      (r : WriteState), l.length - i ≤ k → i ≤ l.length →
      writeSeqGo l i nextSid ids ups asg = Except.ok r →
      writeSeqGo (l ++ [x]) i nextSid ids ups asg =
        writeSeqGo (l ++ [x]) l.length r.nextSid r.ids r.ups r.asg := by
  intro k
  induction k with
  | zero =>
      intro i nextSid ids ups asg r hk hle h
      have hi : i = l.length := by omega
      subst hi
      rw [writeSeqGo, List.get?_eq_none.mpr (by omega)] at h
      obtain rfl := Except.ok.inj h
      rfl
  | succ k ih =>
      intro i nextSid ids ups asg r hk hle h
      by_cases hi : i = l.length
      · subst hi
        rw [writeSeqGo, List.get?_eq_none.mpr (by omega)] at h
        obtain rfl := Except.ok.inj h
        rfl
      · have hlt : i < l.length := by omega
        rw [writeSeqGo] at h
        obtain ⟨e, hg⟩ : ∃ e, l.get? i = some e := by
          cases hge : l.get? i with
          | none => exact absurd (List.get?_eq_none.mp hge) (by omega)
          | some e => exact ⟨e, rfl⟩
        rw [hg] at h
        rw [writeSeqGo, List.get?_append hlt, hg]
        cases e with
        | owned s =>
            exact ih (i + 1) (nextSid + 1) (ids ++ [nextSid])
              (ups ++ [(nextSid, 2 * s.lengthSmpl)]) (asg ++ [(i, nextSid)]) r
              (by omega) (by omega) h
        | reuse t n =>
            dsimp only at h ⊢
            rw [resolveOwnerIdx_append l x i hlt]
            cases ho : resolveOwnerIdx l i with
            | none =>
                rw [ho] at h
                exact Except.noConfusion h
            | some j =>
                rw [ho] at h
                dsimp only at h ⊢
                cases hlu : asg.lookup j with
                | none =>
                    rw [hlu] at h
                    exact Except.noConfusion h
                | some sid =>
                    rw [hlu] at h
                    exact ih (i + 1) nextSid (ids ++ [sid]) ups asg r (by omega) (by omega) h

/-- C8: when `start_new_segment(reuse_segment=True, name=n)` finds a
previously defined segment named `n` (the scan returns the FIRST index `i`
whose step is named `n`), it appends an alias to it instead of a new owned
segment; the alias's resolved sample length equals that segment's length
(attribute reads fall through to the reused step); and writing the sequence
to device memory uploads no payload for the alias — the uploads list is
unchanged — while the alias's sequence-table row carries the very segment id
recorded for the reused step. -/
theorem C8_reuse_segment (l : List SeqEntry) (n : String) (i : ℕ) (s : Seg)
    (hfind : l.findIdx? (fun e => e.entryName == n) = some i)
    (hi : l.get? i = some (SeqEntry.owned s)) :
    startNewSegmentReuse l n = l ++ [SeqEntry.reuse i n] ∧
    resolveLengthSmpl (l ++ [SeqEntry.reuse i n]) l.length = some s.lengthSmpl ∧
    ∀ (sid0 : ℕ) (r : WriteState), writeSequence l sid0 = Except.ok r →
      ∃ sid, r.asg.lookup i = some sid ∧
        writeSequence (l ++ [SeqEntry.reuse i n]) sid0 =
          Except.ok ⟨r.ids ++ [sid], r.ups, r.asg, r.nextSid⟩ := by
  have hlen : i < l.length := (List.get?_eq_some.mp hi).1
  refine ⟨?_, ?_, ?_⟩
  · unfold startNewSegmentReuse
    rw [hfind]
  · rw [resolveLengthSmpl, List.get?_concat_length]
    dsimp only
    rw [dif_pos hlen, resolveLengthSmpl_append l _ i hlen, resolveLengthSmpl, hi]
  · intro sid0 r hw
    obtain ⟨sid, hsid⟩ := writeSeqGo_asg_lookup l l.length 0 sid0 [] [] [] r
      (by omega) hw i s hi (by omega)
    refine ⟨sid, hsid, ?_⟩
    unfold writeSequence at hw ⊢
    rw [writeSeqGo_append_run l _ l.length 0 sid0 [] [] [] r (by omega) (by omega) hw]
    have hro : resolveOwnerIdx (l ++ [SeqEntry.reuse i n]) l.length = some i := by
      rw [resolveOwnerIdx, List.get?_concat_length]
      dsimp only
      rw [dif_pos hlen, resolveOwnerIdx_append l _ i hlen, resolveOwnerIdx, hi]
    rw [writeSeqGo, List.get?_concat_length]
    dsimp only
    rw [hro]
    dsimp only
    rw [hsid]
    dsimp only
    rw [writeSeqGo, List.get?_eq_none.mpr (by simp)]

/-- C8 witness: a one-segment sequence named pulseA, reused once. -/
theorem C8_reuse_segment_witness :
    startNewSegmentReuse [SeqEntry.owned pulseASeg] "pulseA" =
      [SeqEntry.owned pulseASeg, SeqEntry.reuse 0 "pulseA"] ∧
    resolveLengthSmpl [SeqEntry.owned pulseASeg, SeqEntry.reuse 0 "pulseA"] 1 =
      some pulseASeg.lengthSmpl ∧
    writeSequence [SeqEntry.owned pulseASeg, SeqEntry.reuse 0 "pulseA"] 7 =
      Except.ok ⟨[7, 7], [(7, 2 * pulseASeg.lengthSmpl)], [(0, 7)], 8⟩ := by
  have hw : writeSequence [SeqEntry.owned pulseASeg] 7 =
      Except.ok ⟨[7], [(7, 2 * pulseASeg.lengthSmpl)], [(0, 7)], 8⟩ := by
    unfold writeSequence
    rw [writeSeqGo]
    dsimp only [List.get?]
    rw [writeSeqGo]
    dsimp only [List.get?]
    simp
  obtain ⟨h1, h2, h3⟩ := C8_reuse_segment [SeqEntry.owned pulseASeg] "pulseA" 0 pulseASeg
    rfl rfl
  obtain ⟨sid, hsid, hrun⟩ := h3 7 ⟨[7], [(7, 2 * pulseASeg.lengthSmpl)], [(0, 7)], 8⟩ hw
  obtain rfl : sid = 7 := by
    simp [List.lookup] at hsid
    omega
  exact ⟨h1, h2, hrun⟩

end Pym8190a
